import Mathlib

/-!
Verification development for the read-only MongoDB MCP server
(`ro-mongodb-mcp-rs`).  The Rust sources are shallowly embedded as
executable Lean definitions: `serde_json` values become the `Json`
inductive together with an executable parser and compact serializer,
fallible Rust functions become `Except`/`Option`-valued functions, and
the stateful pieces (saved-query store, pod scanning) become explicit
state-passing functions.

Modelling notes, applying to the whole file:
* JSON numbers are modelled as integers; fractional/exponent literals
  are rejected by the model parser (no claim below involves a float).
* `serde_json`'s rejection of leading zeros in number literals is not
  modelled (the model accepts `01` as `1`); no claim depends on it.
* Rust `HashMap`/`HashSet` iteration order is unspecified; maps and
  sets are modelled as lists, iterated in list order.
* Object keys are kept in textual order with duplicates preserved;
  `Value::get` is modelled as last-match lookup, mirroring
  `serde_json`'s last-wins duplicate handling.
-/

namespace MongoMcp

/-- Model of a `serde_json::Value` (numbers restricted to integers). -/
inductive Json where
  | null : Json
  | bool (b : Bool) : Json
  | num (n : Int) : Json
  | str (s : String) : Json
  | arr (elems : List Json) : Json
  | obj (fields : List (String × Json)) : Json

/-- JSON insignificant whitespace characters accepted by `serde_json`. -/
def isWs (c : Char) : Bool :=
  c = ' ' || c = '\t' || c = '\n' || c = '\r'

/-- Drop leading JSON whitespace. -/
def skipWs : List Char → List Char
  | [] => []
  | c :: cs => if isWs c then skipWs cs else c :: cs

/-- Hex digit character for a value below 16 (lowercase, as `serde_json` emits). -/
def hexDigitChar (n : Nat) : Char :=
  if n < 10 then Char.ofNat (48 + n) else Char.ofNat (97 + (n - 10))

/-- Numeric value of a hex digit character, if it is one. -/
def hexVal (c : Char) : Option Nat :=
  if '0' ≤ c ∧ c ≤ '9' then some (c.toNat - 48)
  else if 'a' ≤ c ∧ c ≤ 'f' then some (c.toNat - 87)
  else if 'A' ≤ c ∧ c ≤ 'F' then some (c.toNat - 55)
  else none

/-- Escape one character for inclusion in a JSON string literal, exactly as
`serde_json`'s string serializer does: quote and backslash get a backslash
escape, the five named control characters get their short escapes, all other
control characters get a `\u00XX` escape, and everything else is copied. -/
def escapeChar (c : Char) : List Char :=
  if c = '"' then ['\\', '"']
  else if c = '\\' then ['\\', '\\']
  else if c = Char.ofNat 8 then ['\\', 'b']
  else if c = Char.ofNat 12 then ['\\', 'f']
  else if c = '\n' then ['\\', 'n']
  else if c = '\r' then ['\\', 'r']
  else if c = '\t' then ['\\', 't']
  else if c.toNat < 32 then
    ['\\', 'u', '0', '0', hexDigitChar (c.toNat / 16), hexDigitChar (c.toNat % 16)]
  else [c]

/-- Escape a character list for a JSON string literal body. -/
def escapeList : List Char → List Char
  | [] => []
  | c :: cs => escapeChar c ++ escapeList cs

/-- Parse the body of a JSON string literal (the opening quote already
consumed), returning the decoded characters and the rest of the input. -/
def parseStrBody : List Char → Option (List Char × List Char)
  | [] => none
  | '"' :: rest => some ([], rest)
  | '\\' :: rest =>
    match rest with
    | '"' :: r => (parseStrBody r).map (fun p => ('"' :: p.1, p.2))
    | '\\' :: r => (parseStrBody r).map (fun p => ('\\' :: p.1, p.2))
    | '/' :: r => (parseStrBody r).map (fun p => ('/' :: p.1, p.2))
    | 'b' :: r => (parseStrBody r).map (fun p => (Char.ofNat 8 :: p.1, p.2))
    | 'f' :: r => (parseStrBody r).map (fun p => (Char.ofNat 12 :: p.1, p.2))
    | 'n' :: r => (parseStrBody r).map (fun p => ('\n' :: p.1, p.2))
    | 'r' :: r => (parseStrBody r).map (fun p => ('\r' :: p.1, p.2))
    | 't' :: r => (parseStrBody r).map (fun p => ('\t' :: p.1, p.2))
    | 'u' :: a :: b :: c :: d :: r =>
      match hexVal a, hexVal b, hexVal c, hexVal d with
      | some va, some vb, some vc, some vd =>
        (parseStrBody r).map (fun p =>
          (Char.ofNat (((va * 16 + vb) * 16 + vc) * 16 + vd) :: p.1, p.2))
      | _, _, _, _ => none
    | _ => none
  | c :: rest =>
    if c.toNat < 32 then none
    else (parseStrBody rest).map (fun p => (c :: p.1, p.2))

/-- Accumulate a run of decimal digits, returning the value and the rest. -/
def parseDigits (acc : Nat) : List Char → Nat × List Char
  | [] => (acc, [])
  | c :: cs =>
    if c.isDigit then parseDigits (acc * 10 + (c.toNat - 48)) cs
    else (acc, c :: cs)

/-- Finish a number after its digits: fractional or exponent continuations are
rejected (the model covers integers only). -/
def finishNum (neg : Bool) (n : Nat) (rest : List Char) : Option (Json × List Char) :=
  match rest with
  | [] => some (.num (if neg then -(n : Int) else (n : Int)), [])
  | c :: _ =>
    if c = '.' ∨ c = 'e' ∨ c = 'E' then none
    else some (.num (if neg then -(n : Int) else (n : Int)), rest)

mutual

/-- Fueled recursive-descent parser for one JSON value; models
`serde_json::from_str`'s grammar (integers only; see file header). -/
def parseValue (f : Nat) (cs : List Char) : Option (Json × List Char) :=
  match f with
  | 0 => none
  | f + 1 =>
    match skipWs cs with
    | [] => none
    | c :: r =>
      if c.isDigit then
        match parseDigits 0 (c :: r) with
        | (n, rest) => finishNum false n rest
      else if c = '-' then
        match r with
        | [] => none
        | c2 :: r2 =>
          if c2.isDigit then
            match parseDigits 0 (c2 :: r2) with
            | (n, rest) => finishNum true n rest
          else none
      else if c = '"' then
        match parseStrBody r with
        | some (s, rest) => some (.str (String.mk s), rest)
        | none => none
      else if c = 'n' then
        match r with
        | 'u' :: 'l' :: 'l' :: rest => some (.null, rest)
        | _ => none
      else if c = 't' then
        match r with
        | 'r' :: 'u' :: 'e' :: rest => some (.bool true, rest)
        | _ => none
      else if c = 'f' then
        match r with
        | 'a' :: 'l' :: 's' :: 'e' :: rest => some (.bool false, rest)
        | _ => none
      else if c = '[' then
        match parseArr f r with
        | none => none
        | some (es, rest) => some (.arr es, rest)
      else if c = '{' then
        match parseObj f r with
        | none => none
        | some (fs, rest) => some (.obj fs, rest)
      else none

/-- Parse the contents of an array after the opening bracket. -/
def parseArr (f : Nat) (cs : List Char) : Option (List Json × List Char) :=
  match f with
  | 0 => none
  | f + 1 =>
    match skipWs cs with
    | [] => none
    | c :: r =>
      if c = ']' then some ([], r)
      else
        match parseValue f (c :: r) with
        | none => none
        | some (v, rest) =>
          match parseArrTail f rest with
          | none => none
          | some (vs, rest') => some (v :: vs, rest')

/-- Parse an array continuation: a comma-separated tail or the closing bracket. -/
def parseArrTail (f : Nat) (cs : List Char) : Option (List Json × List Char) :=
  match f with
  | 0 => none
  | f + 1 =>
    match skipWs cs with
    | [] => none
    | c :: r =>
      if c = ']' then some ([], r)
      else if c = ',' then
        match parseValue f r with
        | none => none
        | some (v, rest) =>
          match parseArrTail f rest with
          | none => none
          | some (vs, rest') => some (v :: vs, rest')
      else none

/-- Parse the contents of an object after the opening brace. -/
def parseObj (f : Nat) (cs : List Char) : Option (List (String × Json) × List Char) :=
  match f with
  | 0 => none
  | f + 1 =>
    match skipWs cs with
    | [] => none
    | c :: r =>
      if c = '}' then some ([], r)
      else if c = '"' then
        match parseStrBody r with
        | none => none
        | some (k, rest) =>
          match skipWs rest with
          | ':' :: rest2 =>
            match parseValue f rest2 with
            | none => none
            | some (v, rest3) =>
              match parseObjTail f rest3 with
              | none => none
              | some (fs, rest4) => some ((String.mk k, v) :: fs, rest4)
          | _ => none
      else none

/-- Parse an object continuation: a comma-separated tail or the closing brace. -/
def parseObjTail (f : Nat) (cs : List Char) : Option (List (String × Json) × List Char) :=
  match f with
  | 0 => none
  | f + 1 =>
    match skipWs cs with
    | [] => none
    | c :: r =>
      if c = '}' then some ([], r)
      else if c = ',' then
        match skipWs r with
        | '"' :: rest =>
          match parseStrBody rest with
          | none => none
          | some (k, rest2) =>
            match skipWs rest2 with
            | ':' :: rest3 =>
              match parseValue f rest3 with
              | none => none
              | some (v, rest4) =>
                match parseObjTail f rest4 with
                | none => none
                | some (fs, rest5) => some ((String.mk k, v) :: fs, rest5)
            | _ => none
        | _ => none
      else none

end

/-- The dispatch body of `parseValue` after whitespace skipping, as a
standalone function (definitionally equal to the corresponding part of
`parseValue`; used to reason about a symbolic head character). -/
def parseValueBody (f : Nat) (c : Char) (r : List Char) : Option (Json × List Char) :=
  if c.isDigit then
    match parseDigits 0 (c :: r) with
    | (n, rest) => finishNum false n rest
  else if c = '-' then
    match r with
    | [] => none
    | c2 :: r2 =>
      if c2.isDigit then
        match parseDigits 0 (c2 :: r2) with
        | (n, rest) => finishNum true n rest
      else none
  else if c = '"' then
    match parseStrBody r with
    | some (s, rest) => some (.str (String.mk s), rest)
    | none => none
  else if c = 'n' then
    match r with
    | 'u' :: 'l' :: 'l' :: rest => some (.null, rest)
    | _ => none
  else if c = 't' then
    match r with
    | 'r' :: 'u' :: 'e' :: rest => some (.bool true, rest)
    | _ => none
  else if c = 'f' then
    match r with
    | 'a' :: 'l' :: 's' :: 'e' :: rest => some (.bool false, rest)
    | _ => none
  else if c = '[' then
    match parseArr f r with
    | none => none
    | some (es, rest) => some (.arr es, rest)
  else if c = '{' then
    match parseObj f r with
    | none => none
    | some (fs, rest) => some (.obj fs, rest)
  else none

/-- The dispatch body of `parseArr` after whitespace skipping. -/
def parseArrBody (f : Nat) (c : Char) (r : List Char) : Option (List Json × List Char) :=
  if c = ']' then some ([], r)
  else
    match parseValue f (c :: r) with
    | none => none
    | some (v, rest) =>
      match parseArrTail f rest with
      | none => none
      | some (vs, rest') => some (v :: vs, rest')

/-- Parse a complete JSON document: one value followed only by whitespace.
Models `serde_json::from_str::<Value>`. -/
def Json.parse (s : String) : Option Json :=
  match parseValue (2 * s.length + 2) s.toList with
  | none => none
  | some (j, rest) => if skipWs rest = [] then some j else none

/-- Decimal digit characters of a natural number, most significant first. -/
def natChars (n : Nat) : List Char :=
  if h : n < 10 then [Char.ofNat (48 + n)]
  else natChars (n / 10) ++ [Char.ofNat (48 + n % 10)]
decreasing_by exact Nat.div_lt_self (by omega) (by omega)

/-- Decimal representation of an integer. -/
def intChars (n : Int) : List Char :=
  if n < 0 then '-' :: natChars n.natAbs else natChars n.natAbs

/-- The literal text serde emits for the JSON null value. -/
def nullLit : List Char := ['n', 'u', 'l', 'l']

/-- The literal text serde emits for the JSON true value. -/
def trueLit : List Char := ['t', 'r', 'u', 'e']

/-- The literal text serde emits for the JSON false value. -/
def falseLit : List Char := ['f', 'a', 'l', 's', 'e']

mutual

/-- Compact serialization of a JSON value, exactly as
`serde_json::to_string` renders it (no spaces, escaped strings). -/
def Json.toChars : Json → List Char
  | .null => nullLit
  | .bool b => if b then trueLit else falseLit
  | .num n => intChars n
  | .str s => '"' :: (escapeList s.toList ++ ['"'])
  | .arr es => '[' :: (arrBody es ++ [']'])
  | .obj fs => '{' :: (objBody fs ++ ['}'])

/-- Serialization of the contents of an array. -/
def arrBody : List Json → List Char
  | [] => []
  | j :: rest => Json.toChars j ++ arrTailChars rest

/-- Comma-prefixed serialization of the tail of an array. -/
def arrTailChars : List Json → List Char
  | [] => []
  | j :: rest => ',' :: (Json.toChars j ++ arrTailChars rest)

/-- Serialization of the contents of an object. -/
def objBody : List (String × Json) → List Char
  | [] => []
  | f :: rest => fieldChars f ++ objTailChars rest

/-- Serialization of a single object field. -/
def fieldChars : String × Json → List Char
  | (k, v) => '"' :: (escapeList k.toList ++ ('"' :: ':' :: Json.toChars v))

/-- Comma-prefixed serialization of the tail of an object. -/
def objTailChars : List (String × Json) → List Char
  | [] => []
  | f :: rest => ',' :: (fieldChars f ++ objTailChars rest)

end

mutual

/-- Fuel needed by the parser to reconstruct a value (a bookkeeping
measure for the round-trip proof). -/
def fsize : Json → Nat
  | .null => 1
  | .bool _ => 1
  | .num _ => 1
  | .str _ => 1
  | .arr es => 1 + fsizeL es
  | .obj fs => 1 + fsizeF fs

/-- Fuel needed for a list of array elements. -/
def fsizeL : List Json → Nat
  | [] => 1
  | j :: rest => 1 + fsize j + fsizeL rest

/-- Fuel needed for a list of object fields. -/
def fsizeF : List (String × Json) → Nat
  | [] => 1
  | f :: rest => 1 + fsize f.2 + fsizeF rest

end

/-- Whether a character list may legally follow a serialized number: it
must not start with a digit or a fractional/exponent continuation. -/
def numBoundary : List Char → Bool
  | [] => true
  | c :: _ => !c.isDigit && c != '.' && c != 'e' && c != 'E'

/-- Boundary requirement for re-parsing a serialized value followed by
`rest`: only numbers constrain the first character of `rest`. -/
def jBoundary : Json → List Char → Prop
  | .num _, rest => numBoundary rest = true
  | _, _ => True

/-- Compact string form of a JSON value (`serde_json::Value::to_string`). -/
def Json.toStr (j : Json) : String := String.mk j.toChars

/-- Serialization of a Rust `String` value by `serde_json::to_string`: a
quoted, escaped JSON string literal.  This models the expression
`serde_json::to_string(collection)` in `QueryOperation::to_mongosh_code`,
which never fails for strings. -/
def jsonEncodeString (s : String) : String := Json.toStr (.str s)

/-- Model of `serde_json::Value::get(key)`: a field lookup that yields
`none` on non-objects; last occurrence wins (see file header). -/
def Json.get (j : Json) (key : String) : Option Json :=
  match j with
  | .obj fields => (fields.reverse.find? (fun f => f.1 == key)).map (fun f => f.2)
  | _ => none

/-- Model of `serde_json::Value::as_str`. -/
def Json.asStr : Json → Option String
  | .str s => some s
  | _ => none

/-- Whether a JSON value is an object, i.e. deserializes as a BSON `Document`. -/
def Json.isObj : Json → Bool
  | .obj _ => true
  | _ => false

/-! ### Shared operation model (`src/mongodb.rs`) -/

/-- The read-only query operations (`QueryOperation` in `src/mongodb.rs`). -/
inductive QueryOperation where
  | find
  | aggregate
  | countDocuments
  | distinct
deriving DecidableEq

/-- Optional query parameters (`QueryOptions` in `src/mongodb.rs`);
`limit` is a `u32`, modelled as `Nat`. -/
structure QueryOptions where
  limit : Option Nat := none
  sort : Option String := none
  projection : Option String := none
  distinct_field : Option String := none

/-- Default options, as `QueryOptions::default()`. -/
def QueryOptions.default : QueryOptions := {}

/-- Character-wise ASCII lowercasing, modelling `str::to_lowercase`
(special Unicode lowercase expansions are not modelled; none of the
operation names contains a character subject to them). -/
def toLowerStr (s : String) : String := String.mk (s.toList.map Char.toLower)

/-- Model of `QueryOperation::from_str` in `src/mongodb.rs`. -/
def QueryOperation.from_str (s : String) : Except String QueryOperation :=
  if toLowerStr s = "find" then .ok .find
  else if toLowerStr s = "aggregate" then .ok .aggregate
  else if toLowerStr s = "countdocuments" then .ok .countDocuments
  else if toLowerStr s = "distinct" then .ok .distinct
  else .error ("Invalid operation '" ++ s ++
    "'. Must be one of: find, aggregate, countDocuments, distinct")

/-- The literal text of an empty JSON object, the default projection. -/
def emptyObjText : String := "\x7b\x7d"

/-- The `Find` script chain of `to_mongosh_code`: `find(...)` plus the
optional `sort`/`limit` suffixes, wrapped in `JSON.stringify`. -/
def findChain (safe_collection query projection : String)
    (sort : Option String) (limit : Option Nat) : String :=
  let c0 := "db[" ++ safe_collection ++ "].find(" ++ query ++ ", " ++ projection ++ ")"
  let c1 := match sort with
    | some s => c0 ++ ".sort(" ++ s ++ ")"
    | none => c0
  let c2 := match limit with
    | some l => c1 ++ ".limit(" ++ Nat.repr l ++ ")"
    | none => c1
  "JSON.stringify(" ++ c2 ++ ".toArray())"

/-- Model of `QueryOperation::to_mongosh_code` in `src/mongodb.rs` (the
remote-eval renderer).  The legacy `Distinct` branch re-parses `query`;
since parsing is deterministic and `query` was already checked, the model
reuses the first parse result. -/
def to_mongosh_code (op : QueryOperation) (collection query : String)
    (options : QueryOptions) : Except String String :=
  match Json.parse query with
  | none => .error ("Query is not valid JSON. Received: '" ++ query ++
      "'. Please ensure the query is a valid JSON string.")
  | some distinct_params =>
    let safe_collection := jsonEncodeString collection
    match op with
    | .find =>
      let projection := (options.projection).getD emptyObjText
      match Json.parse projection with
      | none => .error ("Projection is not valid JSON: '" ++ projection ++ "'")
      | some _ =>
        match options.sort with
        | some sort =>
          match Json.parse sort with
          | none => .error ("Sort is not valid JSON: '" ++ sort ++ "'")
          | some _ =>
            .ok (findChain safe_collection query projection (some sort) options.limit)
        | none => .ok (findChain safe_collection query projection none options.limit)
    | .aggregate =>
      .ok ("JSON.stringify(db[" ++ safe_collection ++ "].aggregate(" ++ query ++ ").toArray())")
    | .countDocuments =>
      .ok ("db[" ++ safe_collection ++ "].countDocuments(" ++ query ++ ")")
    | .distinct =>
      match options.distinct_field with
      | some field =>
        .ok ("JSON.stringify(db[" ++ safe_collection ++ "].distinct(" ++
          jsonEncodeString field ++ ", " ++ query ++ "))")
      | none =>
        match (distinct_params.get "field").bind Json.asStr with
        | none => .error "Distinct requires 'distinct_field' parameter"
        | some field =>
          let filter := match distinct_params.get "query" with
            | some v => v.toStr
            | none => emptyObjText
          .ok ("JSON.stringify(db[" ++ safe_collection ++ "].distinct(" ++
            jsonEncodeString field ++ ", " ++ filter ++ "))")

/-! ### Driver-call renderer (`src/direct_connection.rs`) -/

/-- The structured driver call assembled by
`DirectConnection::execute_operation`: the typed arguments handed to the
`mongodb` crate, which is where that function's own computation ends. -/
inductive DriverCall where
  | find (filter : Json) (limit : Option Int) (sort : Option Json) (projection : Option Json)
  | aggregate (pipeline : List Json)
  | countDocuments (filter : Json)
  | distinct (field : String) (filter : Json)

/-- Parse a string as a BSON `Document` (a JSON object), with the
`context` message used on failure. -/
def parseDocE (ctx : String) (s : String) : Except String Json :=
  match Json.parse s with
  | some (Json.obj fs) => .ok (Json.obj fs)
  | _ => .error ctx

/-- Parse an optional string as a `Document`. -/
def parseOptDocE (ctx : String) : Option String → Except String (Option Json)
  | none => .ok none
  | some s => (parseDocE ctx s).map some

/-- Parse a string as a `Vec<Document>`: a JSON array of objects. -/
def parseDocListE (ctx : String) (s : String) : Except String (List Json) :=
  match Json.parse s with
  | some (Json.arr es) => if es.all Json.isObj then .ok es else .error ctx
  | _ => .error ctx

/-- Model of `DirectConnection::execute_operation` in
`src/direct_connection.rs`, up to the point where the typed driver call
is issued: the parameter parsing and validation logic. -/
def execute_operation (op : QueryOperation) (query_str : String)
    (options : QueryOptions) : Except String DriverCall :=
  match op with
  | .find => do
    let filter ← parseDocE "Invalid query JSON for find operation" query_str
    let lim : Option Int := options.limit.map (fun l => (l : Int))
    let sort ← parseOptDocE "Invalid sort JSON" options.sort
    let projection ← parseOptDocE "Invalid projection JSON" options.projection
    pure (.find filter lim sort projection)
  | .aggregate => do
    let pipeline ← parseDocListE "Invalid aggregation pipeline JSON" query_str
    pure (.aggregate pipeline)
  | .countDocuments => do
    let filter ← parseDocE "Invalid query JSON for countDocuments" query_str
    pure (.countDocuments filter)
  | .distinct =>
    match options.distinct_field with
    | some field => do
      let filter ← parseDocE "Invalid filter JSON for distinct" query_str
      pure (.distinct field filter)
    | none =>
      match Json.parse query_str with
      | none => .error "Invalid distinct query JSON"
      | some params =>
        match (params.get "field").bind Json.asStr with
        | none => .error "Distinct requires 'distinct_field' parameter"
        | some field =>
          match params.get "query" with
          | none => .ok (.distinct field (Json.obj []))
          | some (Json.obj fs) => .ok (.distinct field (Json.obj fs))
          | some _ => .error "Invalid filter in distinct query"

/-! ### Effective parameters of the remote-eval renderer -/

/-- The effective parameters the remote-eval renderer splices into its
script: the raw filter/projection/sort texts, the limit, and for
`Distinct` the field name and filter text. -/
inductive MongoshCall where
  | find (filterS projS : String) (sortS : Option String) (limit : Option Nat)
  | aggregate (pipelineS : String)
  | countDocuments (filterS : String)
  | distinct (field : String) (filterS : String)

/-- The validations and parameter extraction of `to_mongosh_code`,
separated from the final string formatting. -/
def mongoshEffective (op : QueryOperation) (query : String)
    (options : QueryOptions) : Except String MongoshCall :=
  match Json.parse query with
  | none => .error ("Query is not valid JSON. Received: '" ++ query ++
      "'. Please ensure the query is a valid JSON string.")
  | some distinct_params =>
    match op with
    | .find =>
      let projection := (options.projection).getD emptyObjText
      match Json.parse projection with
      | none => .error ("Projection is not valid JSON: '" ++ projection ++ "'")
      | some _ =>
        match options.sort with
        | some sort =>
          match Json.parse sort with
          | none => .error ("Sort is not valid JSON: '" ++ sort ++ "'")
          | some _ => .ok (.find query projection (some sort) options.limit)
        | none => .ok (.find query projection none options.limit)
    | .aggregate => .ok (.aggregate query)
    | .countDocuments => .ok (.countDocuments query)
    | .distinct =>
      match options.distinct_field with
      | some field => .ok (.distinct field query)
      | none =>
        match (distinct_params.get "field").bind Json.asStr with
        | none => .error "Distinct requires 'distinct_field' parameter"
        | some field =>
          let filter := match distinct_params.get "query" with
            | some v => v.toStr
            | none => emptyObjText
          .ok (.distinct field filter)

/-- Format a `MongoshCall` as the final mongosh script, exactly as
`to_mongosh_code` does. -/
def renderScript (collection : String) : MongoshCall → String
  | .find filterS projS sortS limit =>
    findChain (jsonEncodeString collection) filterS projS sortS limit
  | .aggregate pipelineS =>
    "JSON.stringify(db[" ++ jsonEncodeString collection ++ "].aggregate(" ++
      pipelineS ++ ").toArray())"
  | .countDocuments filterS =>
    "db[" ++ jsonEncodeString collection ++ "].countDocuments(" ++ filterS ++ ")"
  | .distinct field filterS =>
    "JSON.stringify(db[" ++ jsonEncodeString collection ++ "].distinct(" ++
      jsonEncodeString field ++ ", " ++ filterS ++ "))"

/-- The optional `.sort(...)` link of a Find chain. -/
def sortSuffix : Option String → String
  | some s => ".sort(" ++ s ++ ")"
  | none => ""

/-- The optional `.limit(n)` link of a Find chain. -/
def limitSuffix : Option Nat → String
  | some l => ".limit(" ++ Nat.repr l ++ ")"
  | none => ""

/-- The text of a rendered script before the `db[` subscript.  It depends
only on the effective call, never on the collection name. -/
def scriptHead : MongoshCall → String
  | .find _ _ _ _ => "JSON.stringify("
  | .aggregate _ => "JSON.stringify("
  | .countDocuments _ => ""
  | .distinct _ _ => "JSON.stringify("

/-- The text of a rendered script after the escaped collection name: the
closing bracket and the method chain.  It depends only on the effective
call, never on the collection name, and a Distinct field name enters it
only through `jsonEncodeString`, as the quoted first argument between
`.distinct(` and the filter. -/
def scriptTail : MongoshCall → String
  | .find fs ps ss l =>
    "].find(" ++ fs ++ ", " ++ ps ++ ")" ++ sortSuffix ss ++ limitSuffix l ++
      ".toArray())"
  | .aggregate fs => "].aggregate(" ++ fs ++ ").toArray())"
  | .countDocuments fs => "].countDocuments(" ++ fs ++ ")"
  | .distinct f fs =>
    "].distinct(" ++ (jsonEncodeString f ++ (", " ++ (fs ++ "))")))

/-- Agreement of the driver call and the remote-eval effective
parameters: every raw text the script splices parses back to the typed
value the driver passes (a missing driver projection corresponds to the
spliced default empty object). -/
def ParamsAgree : DriverCall → MongoshCall → Prop
  | .find f l s p, .find fs ps ss ls =>
    Json.parse fs = some f ∧
    Json.parse ps = some (p.getD (Json.obj [])) ∧
    (match s, ss with
     | none, none => True
     | some sj, some sstr => Json.parse sstr = some sj
     | _, _ => False) ∧
    l = ls.map (fun n => (n : Int))
  | .aggregate pipe, .aggregate ps => Json.parse ps = some (.arr pipe)
  | .countDocuments f, .countDocuments fs => Json.parse fs = some f
  | .distinct fl fi, .distinct fl2 fs => fl = fl2 ∧ Json.parse fs = some fi
  | _, _ => False

/-! ### String utilities (models of Rust `str` methods) -/

/-- Whether the second list is a leading segment of the first. -/
def startsWithL : List Char → List Char → Bool
  | _, [] => true
  | [], _ :: _ => false
  | c :: cs, d :: ds => c == d && startsWithL cs ds

/-- Whether the pattern occurs as a contiguous run inside the haystack. -/
def containsL : List Char → List Char → Bool
  | [], pat => pat.isEmpty
  | c :: cs, pat => startsWithL (c :: cs) pat || containsL cs pat

/-- Model of Rust `str::contains` for a string pattern. -/
def strContains (hay pat : String) : Bool := containsL hay.toList pat.toList

/-- Rust `char::is_whitespace`, restricted to the ASCII range (Unicode
space characters are not modelled). -/
def isRustWs (c : Char) : Bool :=
  c.toNat = 32 || (9 ≤ c.toNat && c.toNat ≤ 13)

/-- Model of Rust `str::trim`. -/
def strTrim (s : String) : String :=
  String.mk (((s.toList.dropWhile isRustWs).reverse.dropWhile isRustWs).reverse)

/-- Fueled scanner for Rust `str::replace` (leftmost, non-overlapping).
Every step consumes at least one character and one unit of fuel, so fuel
equal to the input length never runs out; the fuel only makes the
recursion structural. -/
def replaceGo : Nat → List Char → List Char → List Char → List Char
  | 0, s, _, _ => s
  | _ + 1, [], _, _ => []
  | f + 1, c :: rest, pat, rep =>
    if pat ≠ [] ∧ startsWithL (c :: rest) pat then
      rep ++ replaceGo f ((c :: rest).drop pat.length) pat rep
    else
      c :: replaceGo f rest pat rep

/-- Model of Rust `str::replace` with a non-empty string pattern (the
code's patterns `\x7b\x7bname\x7d\x7d` are never empty). -/
def replaceAllL (s pat rep : List Char) : List Char :=
  replaceGo s.length s pat rep

/-- Model of Rust `str::replace` on `String`s. -/
def strReplace (s pat rep : String) : String :=
  String.mk (replaceAllL s.toList pat.toList rep.toList)

/-- Decimal value of a digit list. -/
def digitsVal (ds : List Char) : Nat :=
  ds.foldl (fun acc c => acc * 10 + (c.toNat - 48)) 0

/-- Model of Rust `str::parse::<i64>` succeeding: an optional sign, a
non-empty run of digits, and a value within the `i64` range. -/
def i64ParseOk (s : String) : Bool :=
  match s.toList with
  | '+' :: ds => ds ≠ [] && ds.all Char.isDigit && digitsVal ds ≤ 9223372036854775807
  | '-' :: ds => ds ≠ [] && ds.all Char.isDigit && digitsVal ds ≤ 9223372036854775808
  | ds => ds ≠ [] && ds.all Char.isDigit && digitsVal ds ≤ 9223372036854775807

/-- Exponent continuation of a float literal: empty, or `e`/`E` with an
optionally signed non-empty digit run. -/
def f64ExpOk : List Char → Bool
  | [] => true
  | c :: rest =>
    (c = 'e' || c = 'E') &&
      (match rest with
       | '+' :: ds => ds ≠ [] && ds.all Char.isDigit
       | '-' :: ds => ds ≠ [] && ds.all Char.isDigit
       | ds => ds ≠ [] && ds.all Char.isDigit)

/-- Decimal mantissa with optional fraction, then optional exponent. -/
def f64DecimalOk (cs : List Char) : Bool :=
  let p := cs.span Char.isDigit
  match p.2 with
  | '.' :: rest2 =>
    let q := rest2.span Char.isDigit
    (p.1 ≠ [] || q.1 ≠ []) && f64ExpOk q.2
  | rest => p.1 ≠ [] && f64ExpOk rest

/-- Unsigned body of a Rust `f64` literal: `inf`, `infinity`, `nan`
(case-insensitive) or a decimal form. -/
def f64BodyOk (cs : List Char) : Bool :=
  let lower := cs.map Char.toLower
  lower = ['i', 'n', 'f'] || lower = ['i', 'n', 'f', 'i', 'n', 'i', 't', 'y'] ||
    lower = ['n', 'a', 'n'] || f64DecimalOk cs

/-- Model of Rust `str::parse::<f64>` succeeding (syntactic check). -/
def f64ParseOk (s : String) : Bool :=
  match s.toList with
  | '+' :: cs => f64BodyOk cs
  | '-' :: cs => f64BodyOk cs
  | cs => f64BodyOk cs

/-! ### Output classifier (`parse_mongosh_output` in `src/mongodb.rs`) -/

/-- The empty-output guidance message. -/
def emptyOutputMsg (collection database : String) : String :=
  "Query returned empty output. This may indicate:\n- The collection '" ++
    collection ++ "' might not exist in database '" ++ database ++
    "'\n- Use list_collections to verify the exact collection name (case-sensitive)"

/-- The not-found classification message. -/
def notFoundMsg (collection database trimmed : String) : String :=
  "Collection '" ++ collection ++ "' not found in database '" ++ database ++
    "'.\nSOLUTION: Use list_collections to get exact collection names (they are case-sensitive).\nRaw error: " ++
    trimmed

/-- The authentication-failure classification message. -/
def authFailedMsg (trimmed : String) : String :=
  "MongoDB authentication failed. The credentials may have changed.\nRaw error: " ++ trimmed

/-- The timeout classification message. -/
def timeoutMsg (trimmed : String) : String :=
  "Query timed out. The query may be too slow or the database is under heavy load.\nSUGGESTIONS:\n- Add more specific filters to reduce result size\n- Use $limit in aggregation pipelines\n- Try countDocuments first to check data size\nRaw error: " ++
    trimmed

/-- The syntax/invalid-query classification message. -/
def syntaxMsg (trimmed : String) : String :=
  "Invalid query syntax. Check your query JSON format.\nCOMMON ISSUES:\n- Ensure JSON is properly quoted\n- For distinct: use \x7b\"field\": \"fieldName\", \"query\": \x7b\x7d\x7d\n- For aggregate: use array format [\x7b\"$match\": \x7b\x7d\x7d]\nRaw error: " ++
    trimmed

/-- The hard parse-failure message; the trailing `serde_json` error text
is abstracted as a fixed suffix. -/
def parseFailMsg (collection database trimmed : String) : String :=
  "Failed to parse query result.\nCollection: '" ++ collection ++ "', Database: '" ++
    database ++ "'\nRaw output: " ++ trimmed ++ "\nParse error: invalid JSON"

/-- Model of `parse_mongosh_output` in `src/mongodb.rs`.  The numeric
fallback mirrors the `i64`/`f64` re-parse of text that is not valid
JSON. -/
def parse_mongosh_output (raw_output collection database : String) : Except String String :=
  let trimmed := strTrim raw_output
  if trimmed = "" then .error (emptyOutputMsg collection database)
  else if strContains trimmed "MongoServerError" || strContains trimmed "MongoError" then
    if strContains trimmed "ns not found" || strContains trimmed "doesn't exist" then
      .error (notFoundMsg collection database trimmed)
    else if strContains trimmed "Authentication failed" then
      .error (authFailedMsg trimmed)
    else if strContains trimmed "timed out" || strContains trimmed "timeout" then
      .error (timeoutMsg trimmed)
    else if strContains trimmed "SyntaxError" || strContains trimmed "Invalid" then
      .error (syntaxMsg trimmed)
    else .error ("MongoDB error: " ++ trimmed)
  else
    match Json.parse trimmed with
    | some _ => .ok trimmed
    | none =>
      if i64ParseOk trimmed || f64ParseOk trimmed then .ok trimmed
      else .error (parseFailMsg collection database trimmed)

/-! ### Saved-query template engine (`src/mcp.rs`) -/

mutual

/-- Fueled scan for `\x7b\x7b` openers, modelling the outer loop of
`find_placeholders` in `src/mcp.rs` (duplicates kept; deduplicated by
`findPlaceholders`).  Every step consumes at least one character and one
unit of fuel, so fuel equal to the input length never runs out. -/
def scanPH : Nat → List Char → List String
  | 0, _ => []
  | _ + 1, [] => []
  | f + 1, cs =>
    match cs with
    | '{' :: '{' :: rest => scanInner f rest []
    | _ :: rest => scanPH f rest
    | [] => []

/-- Fueled scan for the closing `\x7d\x7d` of an opened placeholder,
collecting name characters; an unclosed opener discards the rest, an
empty name is skipped, both as in the Rust byte loop. -/
def scanInner : Nat → List Char → List Char → List String
  | 0, _, _ => []
  | _ + 1, [], _ => []
  | f + 1, cs, acc =>
    match cs with
    | '}' :: '}' :: rest =>
      if acc.isEmpty then scanPH f rest else String.mk acc.reverse :: scanPH f rest
    | c :: rest => scanInner f rest (c :: acc)
    | [] => []

end

/-- Model of `find_placeholders` in `src/mcp.rs`.  The Rust function
returns a `HashSet`; the model returns the deduplicated occurrence list
(set iteration order is unspecified in the source, see file header). -/
def findPlaceholders (query : String) : List String :=
  (scanPH query.toList.length query.toList).dedup

/-- The replacement pattern `\x7b\x7bname\x7d\x7d` built by
`substitute_placeholders`. -/
def phPattern (name : String) : String := "\x7b\x7b" ++ name ++ "\x7d\x7d"

/-- Model of `substitute_placeholders` in `src/mcp.rs`; the variables
map is modelled as an association list iterated in list order (`HashMap`
iteration order is unspecified in the source). -/
def substitute_placeholders (query : String) (vars : List (String × String)) :
    Except (List String) String :=
  let placeholders := findPlaceholders query
  let missing := placeholders.filter (fun p => !(vars.any (fun v => v.1 == p)))
  if missing.isEmpty then
    .ok (vars.foldl (fun result v => strReplace result (phPattern v.1) v.2) query)
  else .error missing

/-! ### Saved-query store (`src/saved_queries.rs`) -/

/-- A saved query entry; timestamps are abstracted as naturals supplied
by the caller (the source takes `Utc::now()`). -/
structure SavedQuery where
  name : String
  description : String
  collection : String
  operation : String
  query : String
  created_at : Nat
  updated_at : Nat
deriving DecidableEq

/-- The per-connection saved-query store. -/
structure SavedQueries where
  queries : List SavedQuery
deriving DecidableEq

/-- The list update performed by `SavedQueries::upsert_query`: overwrite
the first entry with the given name, else append a new entry. -/
def upsertList (name description collection operation query : String) (now : Nat) :
    List SavedQuery → List SavedQuery
  | [] => [⟨name, description, collection, operation, query, now, now⟩]
  | q :: rest =>
    if q.name = name then
      { q with description := description, collection := collection,
               operation := operation, query := query, updated_at := now } :: rest
    else q :: upsertList name description collection operation query now rest

/-- Model of `SavedQueries::upsert_query` in `src/saved_queries.rs`,
with the current time passed explicitly. -/
def SavedQueries.upsert_query (qs : SavedQueries)
    (name description collection operation query : String) (now : Nat) : SavedQueries :=
  ⟨upsertList name description collection operation query now qs.queries⟩

/-! ### Pod discovery (`src/k8s_client.rs`) -/

/-- A container status as consulted by `find_healthy_pod`. -/
structure ContainerStatus where
  ready : Bool
deriving DecidableEq

/-- A pod status: the lifecycle phase and the container statuses, both
optional exactly as in the `k8s_openapi` types. -/
structure PodStatus where
  phase : Option String := none
  container_statuses : Option (List ContainerStatus) := none
deriving DecidableEq

/-- A listed pod: its metadata name and status. -/
structure Pod where
  name : Option String := none
  status : Option PodStatus := none
deriving DecidableEq

/-- The scanning loop of `K8sClient::find_healthy_pod`: a pod without a
name aborts the whole scan (the Rust `?` on the missing-name context);
a pod without a status, with a present non-`Running` phase, with no
container-status list, or with a non-ready container is skipped. -/
def findHealthyLoop (ns deployment_name : String) : List Pod → Except String String
  | [] => .error ("No healthy pods found for deployment '" ++ deployment_name ++
      "' in namespace '" ++ ns ++ "'")
  | p :: rest =>
    match p.name with
    | none => .error "Pod has no name"
    | some pod_name =>
      match p.status with
      | none => findHealthyLoop ns deployment_name rest
      | some status =>
        if (match status.phase with
            | some phase => phase != "Running"
            | none => false) then
          findHealthyLoop ns deployment_name rest
        else
          match status.container_statuses with
          | none => findHealthyLoop ns deployment_name rest
          | some css =>
            if css.all (fun cs => cs.ready) then .ok pod_name
            else findHealthyLoop ns deployment_name rest

/-- Model of `K8sClient::find_healthy_pod`, applied to the listed pods
for the deployment's label selector. -/
def find_healthy_pod (ns deployment_name : String) (pods : List Pod) :
    Except String String :=
  findHealthyLoop ns deployment_name pods

/-- The eligibility test the amended claim describes: a status is
present, the phase — when present — is `Running`, and the
container-status list is present with every entry ready. -/
def podQualifies (p : Pod) : Bool :=
  match p.status with
  | none => false
  | some status =>
    (match status.phase with
     | some phase => phase = "Running"
     | none => true) &&
    (match status.container_statuses with
     | some css => css.all (fun cs => cs.ready)
     | none => false)

/-! ### Timeout error messages (both backends) -/

/-- The timeout error built by `DirectConnection::execute_query` in
`src/direct_connection.rs`, from the format string
`Query timed out after \x7b\x7d seconds`. -/
def direct_timeout_message (timeout_secs : Nat) : String :=
  "Query timed out after " ++ Nat.repr timeout_secs ++ " seconds"

/-- The timeout context attached by `K8sClient::exec_command_in_pod` in
`src/k8s_client.rs` when the bounded wait expires. -/
def k8s_timeout_context_message : String := "Command execution timed out"

/-! ## Helper lemmas -/

theorem mk_toList (s : String) : String.mk s.toList = s := rfl

theorem toList_mk (l : List Char) : (String.mk l).toList = l := rfl

theorem toList_append (a b : String) : (a ++ b).toList = a.toList ++ b.toList := rfl

theorem length_mk (l : List Char) : (String.mk l).length = l.length := rfl

theorem skipWs_not_ws {c : Char} (cs : List Char) (h : isWs c = false) :
    skipWs (c :: cs) = c :: cs := by
  simp [skipWs, h]

theorem isDigit_not_ws {c : Char} (h : c.isDigit = true) : isWs c = false := by
  have h1 : c ≠ ' ' := fun e => absurd (e ▸ h) (by decide)
  have h2 : c ≠ '\t' := fun e => absurd (e ▸ h) (by decide)
  have h3 : c ≠ '\n' := fun e => absurd (e ▸ h) (by decide)
  have h4 : c ≠ '\r' := fun e => absurd (e ▸ h) (by decide)
  simp [isWs, h1, h2, h3, h4]

set_option maxHeartbeats 1000000 in
theorem hexVal_hexDigitChar {n : Nat} (h : n < 16) :
    hexVal (hexDigitChar n) = some n := by
  interval_cases n <;> decide

theorem psb_quote (X : List Char) :
    parseStrBody ('\\' :: '"' :: X) =
      (parseStrBody X).map (fun p => ('"' :: p.1, p.2)) := rfl

theorem psb_backslash (X : List Char) :
    parseStrBody ('\\' :: '\\' :: X) =
      (parseStrBody X).map (fun p => ('\\' :: p.1, p.2)) := rfl

theorem psb_b (X : List Char) :
    parseStrBody ('\\' :: 'b' :: X) =
      (parseStrBody X).map (fun p => (Char.ofNat 8 :: p.1, p.2)) := rfl

theorem psb_f (X : List Char) :
    parseStrBody ('\\' :: 'f' :: X) =
      (parseStrBody X).map (fun p => (Char.ofNat 12 :: p.1, p.2)) := rfl

theorem psb_n (X : List Char) :
    parseStrBody ('\\' :: 'n' :: X) =
      (parseStrBody X).map (fun p => ('\n' :: p.1, p.2)) := rfl

theorem psb_r (X : List Char) :
    parseStrBody ('\\' :: 'r' :: X) =
      (parseStrBody X).map (fun p => ('\r' :: p.1, p.2)) := rfl

theorem psb_t (X : List Char) :
    parseStrBody ('\\' :: 't' :: X) =
      (parseStrBody X).map (fun p => ('\t' :: p.1, p.2)) := rfl

theorem psb_u (a b : Char) (X : List Char) :
    parseStrBody ('\\' :: 'u' :: '0' :: '0' :: a :: b :: X) =
      (match hexVal '0', hexVal '0', hexVal a, hexVal b with
       | some va, some vb, some vc, some vd =>
         (parseStrBody X).map (fun p =>
           (Char.ofNat (((va * 16 + vb) * 16 + vc) * 16 + vd) :: p.1, p.2))
       | _, _, _, _ => none) := rfl

set_option maxHeartbeats 8000000 in
theorem parseStrBody_cons (c : Char) (cs : List Char) (h1 : c ≠ '"') (h2 : c ≠ '\\')
    (h3 : 32 ≤ c.toNat) :
    parseStrBody (c :: cs) = (parseStrBody cs).map (fun p => (c :: p.1, p.2)) := by
  rw [parseStrBody.eq_def]
  split
  all_goals simp_all

theorem parseStrBody_escape (cs rest : List Char) :
    parseStrBody (escapeList cs ++ '"' :: rest) = some (cs, rest) := by
  induction cs with
  | nil => rfl
  | cons c cs ih =>
    show parseStrBody ((escapeChar c ++ escapeList cs) ++ '"' :: rest) = _
    rw [List.append_assoc]
    by_cases h1 : c = '"'
    · subst h1
      rw [show escapeChar '"' = ['\\', '"'] from rfl]
      show parseStrBody ('\\' :: '"' :: (escapeList cs ++ '"' :: rest)) = _
      rw [psb_quote, ih]; rfl
    · by_cases h2 : c = '\\'
      · subst h2
        rw [show escapeChar '\\' = ['\\', '\\'] from rfl]
        show parseStrBody ('\\' :: '\\' :: (escapeList cs ++ '"' :: rest)) = _
        rw [psb_backslash, ih]; rfl
      · by_cases h3 : c = Char.ofNat 8
        · subst h3
          rw [show escapeChar (Char.ofNat 8) = ['\\', 'b'] from rfl]
          show parseStrBody ('\\' :: 'b' :: (escapeList cs ++ '"' :: rest)) = _
          rw [psb_b, ih]; rfl
        · by_cases h4 : c = Char.ofNat 12
          · subst h4
            rw [show escapeChar (Char.ofNat 12) = ['\\', 'f'] from rfl]
            show parseStrBody ('\\' :: 'f' :: (escapeList cs ++ '"' :: rest)) = _
            rw [psb_f, ih]; rfl
          · by_cases h5 : c = '\n'
            · subst h5
              rw [show escapeChar '\n' = ['\\', 'n'] from rfl]
              show parseStrBody ('\\' :: 'n' :: (escapeList cs ++ '"' :: rest)) = _
              rw [psb_n, ih]; rfl
            · by_cases h6 : c = '\r'
              · subst h6
                rw [show escapeChar '\r' = ['\\', 'r'] from rfl]
                show parseStrBody ('\\' :: 'r' :: (escapeList cs ++ '"' :: rest)) = _
                rw [psb_r, ih]; rfl
              · by_cases h7 : c = '\t'
                · subst h7
                  rw [show escapeChar '\t' = ['\\', 't'] from rfl]
                  show parseStrBody ('\\' :: 't' :: (escapeList cs ++ '"' :: rest)) = _
                  rw [psb_t, ih]; rfl
                · by_cases h8 : c.toNat < 32
                  · have e : escapeChar c =
                        ['\\', 'u', '0', '0', hexDigitChar (c.toNat / 16),
                          hexDigitChar (c.toNat % 16)] := by
                      simp [escapeChar, h1, h2, h3, h4, h5, h6, h7, h8]
                    rw [e]
                    show parseStrBody ('\\' :: 'u' :: '0' :: '0' ::
                      hexDigitChar (c.toNat / 16) :: hexDigitChar (c.toNat % 16) ::
                      (escapeList cs ++ '"' :: rest)) = _
                    rw [psb_u, hexVal_hexDigitChar (show c.toNat / 16 < 16 by omega),
                      hexVal_hexDigitChar (show c.toNat % 16 < 16 by omega), ih]
                    show some (Char.ofNat (((0 * 16 + 0) * 16 + c.toNat / 16) * 16 +
                      c.toNat % 16) :: cs, rest) = _
                    rw [show ((0 * 16 + 0) * 16 + c.toNat / 16) * 16 + c.toNat % 16
                      = c.toNat by omega, Char.ofNat_toNat]
                  · have e : escapeChar c = [c] := by
                      simp [escapeChar, h1, h2, h3, h4, h5, h6, h7, h8]
                    rw [e]
                    show parseStrBody (c :: (escapeList cs ++ '"' :: rest)) = _
                    rw [parseStrBody_cons c _ h1 h2 (by omega), ih]
                    rfl

theorem parseValue_succ (f : Nat) (c : Char) (r : List Char) (h : isWs c = false) :
    parseValue (f + 1) (c :: r) = parseValueBody f c r := by
  have e1 : skipWs (c :: r) = c :: r := skipWs_not_ws r h
  calc parseValue (f + 1) (c :: r)
      = (match skipWs (c :: r) with
         | [] => none
         | c' :: r' => parseValueBody f c' r') := rfl
    _ = parseValueBody f c r := by rw [e1]

theorem parseArr_succ (f : Nat) (c : Char) (r : List Char) (h : isWs c = false) :
    parseArr (f + 1) (c :: r) = parseArrBody f c r := by
  have e1 : skipWs (c :: r) = c :: r := skipWs_not_ws r h
  calc parseArr (f + 1) (c :: r)
      = (match skipWs (c :: r) with
         | [] => none
         | c' :: r' => parseArrBody f c' r') := rfl
    _ = parseArrBody f c r := by rw [e1]

theorem parseDigits_stop (acc : Nat) (rest : List Char) (h : numBoundary rest = true) :
    parseDigits acc rest = (acc, rest) := by
  cases rest with
  | nil => rfl
  | cons c cs =>
    simp only [numBoundary, Bool.and_eq_true, Bool.not_eq_true'] at h
    simp [parseDigits, h.1.1.1]

theorem digitCharFacts {m : Nat} (h : m < 10) :
    (Char.ofNat (48 + m)).toNat = 48 + m ∧ (Char.ofNat (48 + m)).isDigit = true := by
  interval_cases m <;> exact ⟨rfl, by decide⟩

theorem natChars_head (n : Nat) :
    ∃ d ds, natChars n = d :: ds ∧ d.isDigit = true := by
  induction n using Nat.strong_induction_on with
  | _ n ih =>
    rw [natChars]
    by_cases h : n < 10
    · exact ⟨Char.ofNat (48 + n), [], by simp [h], (digitCharFacts h).2⟩
    · obtain ⟨d, ds, hds, hdig⟩ := ih (n / 10) (Nat.div_lt_self (by omega) (by omega))
      exact ⟨d, ds ++ [Char.ofNat (48 + n % 10)], by simp [h, hds], hdig⟩

theorem parseDigits_natChars (n : Nat) : ∀ acc rest,
    parseDigits acc (natChars n ++ rest) =
      parseDigits (acc * 10 ^ (natChars n).length + n) rest := by
  induction n using Nat.strong_induction_on with
  | _ n ih =>
    intro acc rest
    by_cases h : n < 10
    · rw [natChars, dif_pos h]
      obtain ⟨ht, hd⟩ := digitCharFacts h
      simp [parseDigits, hd, ht]
    · rw [natChars, dif_neg h]
      have hd := digitCharFacts (Nat.mod_lt n (show 0 < 10 by omega))
      rw [List.append_assoc, ih (n / 10) (Nat.div_lt_self (by omega) (by omega)),
        List.singleton_append]
      have e1 : parseDigits (acc * 10 ^ (natChars (n / 10)).length + n / 10)
          (Char.ofNat (48 + n % 10) :: rest) =
          parseDigits ((acc * 10 ^ (natChars (n / 10)).length + n / 10) * 10 + n % 10)
            rest := by
        simp [parseDigits, hd.2, hd.1]
      rw [e1]
      congr 1
      have e2 : (natChars (n / 10) ++ [Char.ofNat (48 + n % 10)]).length
          = (natChars (n / 10)).length + 1 := by simp
      rw [e2, pow_succ]
      have := Nat.div_add_mod n 10
      ring_nf
      omega

theorem finishNum_boundary (neg : Bool) (n : Nat) (rest : List Char)
    (h : numBoundary rest = true) :
    finishNum neg n rest = some (.num (if neg then -(n : Int) else (n : Int)), rest) := by
  cases rest with
  | nil => rfl
  | cons c cs =>
    simp only [numBoundary, Bool.and_eq_true, Bool.not_eq_true', bne_iff_ne, ne_eq] at h
    have : ¬ (c = '.' ∨ c = 'e' ∨ c = 'E') := by
      push_neg
      exact ⟨h.1.1.2, h.1.2, h.2⟩
    simp [finishNum, this]

theorem fsize_pos (j : Json) : 1 ≤ fsize j := by
  cases j <;> simp [fsize]

theorem fsizeL_pos (es : List Json) : 1 ≤ fsizeL es := by
  cases es <;> (simp only [fsizeL]; omega)

theorem fsizeF_pos (fs : List (String × Json)) : 1 ≤ fsizeF fs := by
  cases fs <;> (simp only [fsizeF]; omega)

theorem digit_head_facts {d : Char} (h : d.isDigit = true) :
    isWs d = false ∧ d ≠ ']' ∧ d ≠ ',' ∧ d ≠ '}' ∧ d ≠ ':' := by
  refine ⟨isDigit_not_ws h, ?_, ?_, ?_, ?_⟩ <;>
    (rintro rfl; exact absurd h (by decide))

theorem toChars_head (j : Json) :
    ∃ c cs, Json.toChars j = c :: cs ∧ isWs c = false ∧
      c ≠ ']' ∧ c ≠ ',' ∧ c ≠ '}' ∧ c ≠ ':' := by
  cases j with
  | null => exact ⟨'n', ['u', 'l', 'l'], rfl, by decide, by decide,
      by decide, by decide, by decide⟩
  | bool b =>
    cases b with
    | true => exact ⟨'t', ['r', 'u', 'e'], rfl, by decide, by decide,
        by decide, by decide, by decide⟩
    | false => exact ⟨'f', ['a', 'l', 's', 'e'], rfl, by decide,
        by decide, by decide, by decide, by decide⟩
  | num n =>
    by_cases hn : n < 0
    · exact ⟨'-', natChars n.natAbs, by simp [Json.toChars, intChars, hn], by decide,
        by decide, by decide, by decide, by decide⟩
    · obtain ⟨d, ds, hds, hdig⟩ := natChars_head n.natAbs
      obtain ⟨hw, h1, h2, h3, h4⟩ := digit_head_facts hdig
      exact ⟨d, ds, by simp [Json.toChars, intChars, hn, hds], hw, h1, h2, h3, h4⟩
  | str s => exact ⟨'"', escapeList s.toList ++ ['"'], by simp [Json.toChars], by decide,
      by decide, by decide, by decide, by decide⟩
  | arr es => exact ⟨'[', arrBody es ++ [']'], by simp [Json.toChars], by decide,
      by decide, by decide, by decide, by decide⟩
  | obj fs => exact ⟨'{', objBody fs ++ ['}'], by simp [Json.toChars], by decide,
      by decide, by decide, by decide, by decide⟩

theorem numBoundary_arrSep (tl : List Json) (rest : List Char) :
    numBoundary (arrTailChars tl ++ ']' :: rest) = true := by
  cases tl <;> simp [arrTailChars, numBoundary]

theorem numBoundary_objSep (tl : List (String × Json)) (rest : List Char) :
    numBoundary (objTailChars tl ++ '}' :: rest) = true := by
  cases tl <;> simp [objTailChars, numBoundary, fieldChars]

theorem jBoundary_of_num (j : Json) (rest : List Char)
    (h : numBoundary rest = true) : jBoundary j rest := by
  cases j <;> simp [jBoundary, h]

theorem parse_rt : ∀ f : Nat,
    (∀ j rest, fsize j ≤ f → jBoundary j rest →
      parseValue f (Json.toChars j ++ rest) = some (j, rest)) ∧
    (∀ es rest, fsizeL es ≤ f →
      parseArr f (arrBody es ++ ']' :: rest) = some (es, rest)) ∧
    (∀ es rest, fsizeL es ≤ f →
      parseArrTail f (arrTailChars es ++ ']' :: rest) = some (es, rest)) ∧
    (∀ fs rest, fsizeF fs ≤ f →
      parseObj f (objBody fs ++ '}' :: rest) = some (fs, rest)) ∧
    (∀ fs rest, fsizeF fs ≤ f →
      parseObjTail f (objTailChars fs ++ '}' :: rest) = some (fs, rest)) := by
  intro f
  induction f with
  | zero =>
    refine ⟨?_, ?_, ?_, ?_, ?_⟩
    · intro j rest hf _; exact absurd hf (by have := fsize_pos j; omega)
    · intro es rest hf; exact absurd hf (by have := fsizeL_pos es; omega)
    · intro es rest hf; exact absurd hf (by have := fsizeL_pos es; omega)
    · intro fs rest hf; exact absurd hf (by have := fsizeF_pos fs; omega)
    · intro fs rest hf; exact absurd hf (by have := fsizeF_pos fs; omega)
  | succ f ih =>
    obtain ⟨ihV, ihA, ihAT, ihO, ihOT⟩ := ih
    refine ⟨?_, ?_, ?_, ?_, ?_⟩
    · intro j rest hf hb
      cases j with
      | null => simp only [Json.toChars]; exact rfl
      | bool b => cases b <;> (simp only [Json.toChars]; exact rfl)
      | num n =>
        have hb' : numBoundary rest = true := hb
        simp only [Json.toChars, intChars]
        by_cases hn : n < 0
        · rw [if_pos hn]
          obtain ⟨d, ds, hds, hdig⟩ := natChars_head n.natAbs
          rw [hds, List.cons_append, List.cons_append]
          show (if d.isDigit then
                  match parseDigits 0 (d :: (ds ++ rest)) with
                  | (m, r2) => finishNum true m r2
                else none) = some (.num n, rest)
          rw [if_pos hdig,
            show d :: (ds ++ rest) = natChars n.natAbs ++ rest by rw [hds]; rfl,
            parseDigits_natChars, parseDigits_stop _ _ hb']
          show finishNum true (0 * 10 ^ (natChars n.natAbs).length + n.natAbs) rest
            = some (.num n, rest)
          rw [finishNum_boundary _ _ _ hb']
          simp only [Option.some.injEq, Prod.mk.injEq, Json.num.injEq, and_true,
            Bool.true_eq_false, if_true, if_false, ite_true, ite_false]
          simp only [Nat.zero_mul, Nat.zero_add]
          omega
        · rw [if_neg hn]
          obtain ⟨d, ds, hds, hdig⟩ := natChars_head n.natAbs
          rw [hds, List.cons_append,
            parseValue_succ f d _ (isDigit_not_ws hdig)]
          simp only [parseValueBody]
          rw [if_pos hdig,
            show d :: (ds ++ rest) = natChars n.natAbs ++ rest by rw [hds]; rfl,
            parseDigits_natChars, parseDigits_stop _ _ hb']
          show finishNum false (0 * 10 ^ (natChars n.natAbs).length + n.natAbs) rest
            = some (.num n, rest)
          rw [finishNum_boundary _ _ _ hb']
          simp only [Option.some.injEq, Prod.mk.injEq, Json.num.injEq, and_true,
            Bool.false_eq_true, if_true, if_false, ite_true, ite_false]
          simp only [Nat.zero_mul, Nat.zero_add]
          omega
      | str s =>
        simp only [Json.toChars, List.cons_append, List.append_assoc,
          List.singleton_append, List.nil_append]
        show ((match parseStrBody (escapeList s.toList ++ '"' :: rest) with
              | some (cs2, r2) => some (Json.str (String.mk cs2), r2)
              | none => none) : Option (Json × List Char)) = some (Json.str s, rest)
        rw [parseStrBody_escape]
        rfl
      | arr es =>
        simp only [Json.toChars, List.cons_append, List.append_assoc,
          List.singleton_append, List.nil_append]
        show ((match parseArr f (arrBody es ++ ']' :: rest) with
              | none => none
              | some (es2, r2) => some (Json.arr es2, r2)) :
            Option (Json × List Char)) = some (Json.arr es, rest)
        rw [ihA es rest (by simp only [fsize] at hf; omega)]
      | obj fs =>
        simp only [Json.toChars, List.cons_append, List.append_assoc,
          List.singleton_append, List.nil_append]
        show ((match parseObj f (objBody fs ++ '}' :: rest) with
              | none => none
              | some (fs2, r2) => some (Json.obj fs2, r2)) :
            Option (Json × List Char)) = some (Json.obj fs, rest)
        rw [ihO fs rest (by simp only [fsize] at hf; omega)]
    · intro es rest hfl
      cases es with
      | nil => simp only [arrBody, List.nil_append]; exact rfl
      | cons j tl =>
        simp only [arrBody, List.append_assoc]
        obtain ⟨c, cs2, hshape, hw, hne1, hne2, hne3, hne4⟩ := toChars_head j
        rw [hshape, List.cons_append, parseArr_succ f c _ hw]
        simp only [parseArrBody]
        rw [if_neg hne1, ← List.cons_append, ← hshape]
        have hb2 : jBoundary j (arrTailChars tl ++ ']' :: rest) :=
          jBoundary_of_num _ _ (numBoundary_arrSep tl rest)
        have hfj : fsize j ≤ f := by simp only [fsizeL] at hfl; omega
        have hft : fsizeL tl ≤ f := by
          simp only [fsizeL] at hfl; have := fsize_pos j; omega
        simp only [ihV j _ hfj hb2, ihAT tl rest hft]
    · intro es rest hfl
      cases es with
      | nil => simp only [arrTailChars, List.nil_append]; exact rfl
      | cons j tl =>
        simp only [arrTailChars, List.cons_append, List.append_assoc]
        show ((match parseValue f (Json.toChars j ++ (arrTailChars tl ++ ']' :: rest)) with
              | none => none
              | some (v, r2) =>
                match parseArrTail f r2 with
                | none => none
                | some (vs, r3) => some (v :: vs, r3)) :
            Option (List Json × List Char)) = some (j :: tl, rest)
        have hb2 : jBoundary j (arrTailChars tl ++ ']' :: rest) :=
          jBoundary_of_num _ _ (numBoundary_arrSep tl rest)
        have hfj : fsize j ≤ f := by simp only [fsizeL] at hfl; omega
        have hft : fsizeL tl ≤ f := by
          simp only [fsizeL] at hfl; have := fsize_pos j; omega
        simp only [ihV j _ hfj hb2, ihAT tl rest hft]
    · intro fs rest hff
      cases fs with
      | nil => simp only [objBody, List.nil_append]; exact rfl
      | cons kv tl =>
        obtain ⟨k, v⟩ := kv
        simp only [objBody, fieldChars, List.cons_append, List.append_assoc]
        show ((match parseStrBody (escapeList k.toList ++
                ('"' :: ':' :: Json.toChars v ++ (objTailChars tl ++ '}' :: rest))) with
              | none => none
              | some (k2, r2) =>
                match skipWs r2 with
                | ':' :: r3 =>
                  match parseValue f r3 with
                  | none => none
                  | some (v2, r4) =>
                    match parseObjTail f r4 with
                    | none => none
                    | some (fs2, r5) => some ((String.mk k2, v2) :: fs2, r5)
                | _ => none) :
            Option (List (String × Json) × List Char)) = some ((k, v) :: tl, rest)
        rw [show escapeList k.toList ++
              ('"' :: ':' :: Json.toChars v ++ (objTailChars tl ++ '}' :: rest))
            = escapeList k.toList ++
              '"' :: (':' :: (Json.toChars v ++ (objTailChars tl ++ '}' :: rest)))
          by simp, parseStrBody_escape]
        have hb2 : jBoundary v (objTailChars tl ++ '}' :: rest) :=
          jBoundary_of_num _ _ (numBoundary_objSep tl rest)
        have hfv : fsize v ≤ f := by simp only [fsizeF] at hff; omega
        have hft : fsizeF tl ≤ f := by
          simp only [fsizeF] at hff; have := fsize_pos v; omega
        show ((match parseValue f (Json.toChars v ++ (objTailChars tl ++ '}' :: rest)) with
              | none => none
              | some (v2, r4) =>
                match parseObjTail f r4 with
                | none => none
                | some (fs2, r5) => some ((String.mk k.toList, v2) :: fs2, r5)) :
            Option (List (String × Json) × List Char)) = some ((k, v) :: tl, rest)
        simp only [ihV v _ hfv hb2, ihOT tl rest hft, mk_toList]
    · intro fs rest hff
      cases fs with
      | nil => simp only [objTailChars, List.nil_append]; exact rfl
      | cons kv tl =>
        obtain ⟨k, v⟩ := kv
        simp only [objTailChars, fieldChars, List.cons_append, List.append_assoc]
        show ((match parseStrBody (escapeList k.toList ++
                ('"' :: ':' :: Json.toChars v ++ (objTailChars tl ++ '}' :: rest))) with
              | none => none
              | some (k2, r2) =>
                match skipWs r2 with
                | ':' :: r3 =>
                  match parseValue f r3 with
                  | none => none
                  | some (v2, r4) =>
                    match parseObjTail f r4 with
                    | none => none
                    | some (fs2, r5) => some ((String.mk k2, v2) :: fs2, r5)
                | _ => none) :
            Option (List (String × Json) × List Char)) = some ((k, v) :: tl, rest)
        rw [show escapeList k.toList ++
              ('"' :: ':' :: Json.toChars v ++ (objTailChars tl ++ '}' :: rest))
            = escapeList k.toList ++
              '"' :: (':' :: (Json.toChars v ++ (objTailChars tl ++ '}' :: rest)))
          by simp, parseStrBody_escape]
        have hb2 : jBoundary v (objTailChars tl ++ '}' :: rest) :=
          jBoundary_of_num _ _ (numBoundary_objSep tl rest)
        have hfv : fsize v ≤ f := by simp only [fsizeF] at hff; omega
        have hft : fsizeF tl ≤ f := by
          simp only [fsizeF] at hff; have := fsize_pos v; omega
        show ((match parseValue f (Json.toChars v ++ (objTailChars tl ++ '}' :: rest)) with
              | none => none
              | some (v2, r4) =>
                match parseObjTail f r4 with
                | none => none
                | some (fs2, r5) => some ((String.mk k.toList, v2) :: fs2, r5)) :
            Option (List (String × Json) × List Char)) = some ((k, v) :: tl, rest)
        simp only [ihV v _ hfv hb2, ihOT tl rest hft, mk_toList]

theorem toChars_length_pos (j : Json) : 1 ≤ (Json.toChars j).length := by
  obtain ⟨c, cs, h, -⟩ := toChars_head j
  simp [h]

mutual

theorem fsize_le (j : Json) : fsize j ≤ 2 * (Json.toChars j).length := by
  cases j with
  | null => simp [fsize, Json.toChars, nullLit]
  | bool b => cases b <;> simp [fsize, Json.toChars, trueLit, falseLit]
  | num n =>
    have := toChars_length_pos (.num n)
    simp only [fsize]
    omega
  | str s =>
    have := toChars_length_pos (.str s)
    simp only [fsize]
    omega
  | arr es =>
    cases es with
    | nil => simp [fsize, fsizeL, Json.toChars, arrBody]
    | cons j tl =>
      have h1 := fsize_le j
      have h2 := fsizeL_le_tail tl
      simp only [fsize, fsizeL, Json.toChars, arrBody, List.length_cons,
        List.length_append] at *
      omega
  | obj fs =>
    cases fs with
    | nil => simp [fsize, fsizeF, Json.toChars, objBody]
    | cons kv tl =>
      have h1 := fsize_le kv.2
      have h2 := fsizeF_le_tail tl
      have h3 : 1 + (Json.toChars kv.2).length ≤ (fieldChars kv).length := by
        obtain ⟨k, v⟩ := kv
        simp [fieldChars]
        omega
      simp only [fsize, fsizeF, Json.toChars, objBody, List.length_cons,
        List.length_append] at *
      omega

theorem fsizeL_le_tail (es : List Json) :
    fsizeL es ≤ 2 * (arrTailChars es).length + 1 := by
  cases es with
  | nil => simp [fsizeL, arrTailChars]
  | cons j tl =>
    have h1 := fsize_le j
    have h2 := fsizeL_le_tail tl
    simp only [fsizeL, arrTailChars, List.length_cons, List.length_append] at *
    omega

theorem fsizeF_le_tail (fs : List (String × Json)) :
    fsizeF fs ≤ 2 * (objTailChars fs).length + 1 := by
  cases fs with
  | nil => simp [fsizeF, objTailChars]
  | cons kv tl =>
    have h1 := fsize_le kv.2
    have h2 := fsizeF_le_tail tl
    have h3 : 1 + (Json.toChars kv.2).length ≤ (fieldChars kv).length := by
      obtain ⟨k, v⟩ := kv
      simp [fieldChars]
      omega
    simp only [fsizeF, objTailChars, List.length_cons, List.length_append] at *
    omega

end

theorem Json.parse_toStr (j : Json) : Json.parse (Json.toStr j) = some j := by
  show (match parseValue (2 * (String.mk (Json.toChars j)).length + 2)
          (String.mk (Json.toChars j)).toList with
        | none => none
        | some (j2, rest) => if skipWs rest = [] then some j2 else none) = some j
  rw [length_mk, toList_mk]
  have hb : jBoundary j [] := by cases j <;> simp [jBoundary, numBoundary]
  have h1 := (parse_rt (2 * (Json.toChars j).length + 2)).1 j []
    (le_trans (fsize_le j) (by omega)) hb
  rw [List.append_nil] at h1
  rw [h1]
  rfl

theorem parse_emptyObjText : Json.parse emptyObjText = some (.obj []) := rfl

theorem to_mongosh_factor (op : QueryOperation) (collection query : String)
    (options : QueryOptions) :
    to_mongosh_code op collection query options =
      (mongoshEffective op query options).map (renderScript collection) := by
  cases hq : Json.parse query with
  | none => simp [to_mongosh_code, mongoshEffective, hq, Except.map]
  | some dp =>
    cases op with
    | find =>
      cases hp : Json.parse ((options.projection).getD emptyObjText) with
      | none => simp [to_mongosh_code, mongoshEffective, hq, hp, Except.map]
      | some pj =>
        cases hs : options.sort with
        | none =>
          simp [to_mongosh_code, mongoshEffective, renderScript, hq, hp, hs,
            Except.map]
        | some sort =>
          cases hs2 : Json.parse sort with
          | none =>
            simp [to_mongosh_code, mongoshEffective, hq, hp, hs, hs2, Except.map]
          | some sj =>
            simp [to_mongosh_code, mongoshEffective, renderScript, hq, hp, hs, hs2,
              Except.map]
    | aggregate =>
      simp [to_mongosh_code, mongoshEffective, renderScript, hq, Except.map]
    | countDocuments =>
      simp [to_mongosh_code, mongoshEffective, renderScript, hq, Except.map]
    | distinct =>
      cases hd : options.distinct_field with
      | some field =>
        simp [to_mongosh_code, mongoshEffective, renderScript, hq, hd, Except.map]
      | none =>
        cases hg : (dp.get "field").bind Json.asStr with
        | none => simp [to_mongosh_code, mongoshEffective, hq, hd, hg, Except.map]
        | some field =>
          simp [to_mongosh_code, mongoshEffective, renderScript, hq, hd, hg,
            Except.map]

theorem parseDocE_ok {ctx s : String} {j : Json} (h : parseDocE ctx s = .ok j) :
    Json.parse s = some j ∧ j.isObj = true := by
  unfold parseDocE at h
  cases hq : Json.parse s with
  | none => rw [hq] at h; exact absurd h (by simp)
  | some jj =>
    rw [hq] at h
    cases jj with
    | obj fs =>
      injection h with h2
      subst h2
      exact ⟨rfl, rfl⟩
    | null => exact absurd h (by simp)
    | bool b => exact absurd h (by simp)
    | num n => exact absurd h (by simp)
    | str s2 => exact absurd h (by simp)
    | arr es => exact absurd h (by simp)

theorem parseOptDocE_ok {ctx : String} {os : Option String} {oj : Option Json}
    (h : parseOptDocE ctx os = .ok oj) :
    (os = none ∧ oj = none) ∨
      (∃ s j, os = some s ∧ oj = some j ∧ Json.parse s = some j) := by
  cases os with
  | none =>
    left
    simp only [parseOptDocE] at h
    exact ⟨rfl, by cases h; rfl⟩
  | some s =>
    right
    simp only [parseOptDocE] at h
    cases hd : parseDocE ctx s with
    | error e => rw [hd] at h; exact absurd h (by simp [Except.map])
    | ok j =>
      rw [hd] at h
      refine ⟨s, j, rfl, ?_, (parseDocE_ok hd).1⟩
      cases h
      rfl

theorem parseDocListE_ok {ctx s : String} {es : List Json}
    (h : parseDocListE ctx s = .ok es) :
    Json.parse s = some (.arr es) := by
  unfold parseDocListE at h
  cases hq : Json.parse s with
  | none => rw [hq] at h; exact absurd h (by simp)
  | some jj =>
    rw [hq] at h
    cases jj with
    | arr es2 =>
      by_cases ha : es2.all Json.isObj
      · simp only [ha, if_true] at h
        injection h with h2
        subst h2
        rfl
      · simp only [ha, if_false] at h
        exact absurd h (by simp)
    | null => exact absurd h (by simp)
    | bool b => exact absurd h (by simp)
    | num n => exact absurd h (by simp)
    | str s2 => exact absurd h (by simp)
    | obj fs => exact absurd h (by simp)

theorem driver_to_mongosh (op : QueryOperation) (q : String) (o : QueryOptions)
    (call : DriverCall) (h : execute_operation op q o = .ok call) :
    ∃ m, mongoshEffective op q o = .ok m ∧ ParamsAgree call m := by
  cases op with
  | find =>
    simp only [execute_operation, bind, Except.bind] at h
    cases hf : parseDocE "Invalid query JSON for find operation" q with
    | error e => rw [hf] at h; exact absurd h (by simp)
    | ok filter =>
      rw [hf] at h
      cases hs : parseOptDocE "Invalid sort JSON" o.sort with
      | error e => rw [hs] at h; exact absurd h (by simp)
      | ok sortj =>
        rw [hs] at h
        cases hp : parseOptDocE "Invalid projection JSON" o.projection with
        | error e => rw [hp] at h; exact absurd h (by simp)
        | ok projj =>
          rw [hp] at h
          have hcall : call = .find filter (o.limit.map (fun l => (l : Int))) sortj projj := by
            cases h; rfl
          obtain ⟨hq, -⟩ := parseDocE_ok hf
          subst hcall
          -- Build the mongosh side.
          rcases parseOptDocE_ok hp with ⟨hpn, hpjn⟩ | ⟨ps, pj, hps, hpj, hppar⟩
          · rcases parseOptDocE_ok hs with ⟨hsn, hsjn⟩ | ⟨ss, sj, hss, hsj, hspar⟩
            · refine ⟨.find q emptyObjText none o.limit, ?_, ?_⟩
              · simp only [mongoshEffective, hq, hpn, hsn, Option.getD,
                  parse_emptyObjText]
              · subst hpjn; subst hsjn
                exact ⟨hq, parse_emptyObjText, trivial, rfl⟩
            · refine ⟨.find q emptyObjText (some ss) o.limit, ?_, ?_⟩
              · simp only [mongoshEffective, hq, hpn, hss, Option.getD,
                  parse_emptyObjText, hspar]
              · subst hpjn; subst hsj
                exact ⟨hq, parse_emptyObjText, hspar, rfl⟩
          · rcases parseOptDocE_ok hs with ⟨hsn, hsjn⟩ | ⟨ss, sj, hss, hsj, hspar⟩
            · refine ⟨.find q ps none o.limit, ?_, ?_⟩
              · simp only [mongoshEffective, hq, hps, hsn, Option.getD, hppar]
              · subst hpj; subst hsjn
                exact ⟨hq, hppar, trivial, rfl⟩
            · refine ⟨.find q ps (some ss) o.limit, ?_, ?_⟩
              · simp only [mongoshEffective, hq, hps, hss, Option.getD, hppar, hspar]
              · subst hpj; subst hsj
                exact ⟨hq, hppar, hspar, rfl⟩
  | aggregate =>
    simp only [execute_operation, bind, Except.bind] at h
    cases hf : parseDocListE "Invalid aggregation pipeline JSON" q with
    | error e => rw [hf] at h; exact absurd h (by simp)
    | ok pipeline =>
      rw [hf] at h
      have hcall : call = .aggregate pipeline := by cases h; rfl
      subst hcall
      have hq := parseDocListE_ok hf
      exact ⟨.aggregate q, by simp only [mongoshEffective, hq], hq⟩
  | countDocuments =>
    simp only [execute_operation, bind, Except.bind] at h
    cases hf : parseDocE "Invalid query JSON for countDocuments" q with
    | error e => rw [hf] at h; exact absurd h (by simp)
    | ok filter =>
      rw [hf] at h
      have hcall : call = .countDocuments filter := by cases h; rfl
      subst hcall
      obtain ⟨hq, -⟩ := parseDocE_ok hf
      exact ⟨.countDocuments q, by simp only [mongoshEffective, hq], hq⟩
  | distinct =>
    cases hd : o.distinct_field with
    | some field =>
      simp only [execute_operation, hd, bind, Except.bind] at h
      cases hf : parseDocE "Invalid filter JSON for distinct" q with
      | error e => rw [hf] at h; exact absurd h (by simp)
      | ok filter =>
        rw [hf] at h
        have hcall : call = .distinct field filter := by cases h; rfl
        subst hcall
        obtain ⟨hq, -⟩ := parseDocE_ok hf
        exact ⟨.distinct field q, by simp only [mongoshEffective, hq, hd], ⟨rfl, hq⟩⟩
    | none =>
      simp only [execute_operation, hd] at h
      cases hq : Json.parse q with
      | none => rw [hq] at h; exact absurd h (by simp)
      | some params =>
        rw [hq] at h
        cases hg : (params.get "field").bind Json.asStr with
        | none => simp [hg] at h
        | some field =>
          simp only [hg] at h
          cases hqu : params.get "query" with
          | none =>
            simp only [hqu] at h
            injection h with h2
            subst h2
            refine ⟨.distinct field emptyObjText, ?_, rfl, parse_emptyObjText⟩
            simp only [mongoshEffective, hq, hd, hg, hqu]
          | some v =>
            simp only [hqu] at h
            cases v with
            | obj fs =>
              injection h with h2
              subst h2
              refine ⟨.distinct field (Json.obj fs).toStr, ?_, rfl, Json.parse_toStr _⟩
              simp only [mongoshEffective, hq, hd, hg, hqu]
            | null => exact absurd h (by simp)
            | bool b => exact absurd h (by simp)
            | num n => exact absurd h (by simp)
            | str s2 => exact absurd h (by simp)
            | arr es => exact absurd h (by simp)

theorem strAppend_assoc (a b c : String) : a ++ b ++ c = a ++ (b ++ c) := by
  cases a with
  | mk da =>
    cases b with
    | mk db =>
      cases c with
      | mk dc => exact congrArg String.mk (List.append_assoc da db dc)

theorem startsWithL_nil (l : List Char) : startsWithL l [] = true := by
  cases l <;> rfl

theorem startsWithL_refl (l : List Char) : startsWithL l l = true := by
  induction l with
  | nil => rfl
  | cons c cs ih => simp [startsWithL, ih]

theorem startsWithL_append (p r : List Char) : startsWithL (p ++ r) p = true := by
  induction p with
  | nil => exact startsWithL_nil r
  | cons c cs ih =>
    show (c == c && startsWithL (cs ++ r) cs) = true
    simp [ih]

theorem containsL_pre (p r : List Char) : containsL (p ++ r) p = true := by
  cases p with
  | nil =>
    cases r with
    | nil => rfl
    | cons c cs => simp [containsL, startsWithL]
  | cons c cs =>
    have h1 : startsWithL (c :: (cs ++ r)) (c :: cs) = true := startsWithL_append (c :: cs) r
    show (startsWithL (c :: (cs ++ r)) (c :: cs) || containsL (cs ++ r) (c :: cs)) = true
    rw [h1]
    rfl

theorem containsL_self (p : List Char) : containsL p p = true := by
  cases p with
  | nil => rfl
  | cons c cs =>
    have h1 : startsWithL (c :: cs) (c :: cs) = true := startsWithL_refl (c :: cs)
    show (startsWithL (c :: cs) (c :: cs) || containsL cs (c :: cs)) = true
    rw [h1]
    rfl

theorem containsL_left (a : List Char) {s p : List Char}
    (h : containsL s p = true) : containsL (a ++ s) p = true := by
  induction a with
  | nil => simpa
  | cons c cs ih =>
    show (startsWithL (c :: (cs ++ s)) p || containsL (cs ++ s) p) = true
    rw [ih]
    simp

theorem startsWithL_weaken {l p : List Char} (r : List Char)
    (h : startsWithL l p = true) : startsWithL (l ++ r) p = true := by
  induction p generalizing l with
  | nil => exact startsWithL_nil (l ++ r)
  | cons c cs ih =>
    cases l with
    | nil => exact absurd h (by simp [startsWithL])
    | cons d ds =>
      have h2 : (d == c && startsWithL ds cs) = true := h
      show (d == c && startsWithL (ds ++ r) cs) = true
      simp only [Bool.and_eq_true] at h2 ⊢
      exact ⟨h2.1, ih h2.2⟩

theorem containsL_right {s p : List Char} (r : List Char)
    (h : containsL s p = true) : containsL (s ++ r) p = true := by
  induction s with
  | nil =>
    simp only [containsL] at h
    cases p with
    | nil => exact containsL_pre [] r
    | cons c cs => exact absurd h (by simp)
  | cons c cs ih =>
    have h2 : (startsWithL (c :: cs) p || containsL cs p) = true := h
    show (startsWithL (c :: (cs ++ r)) p || containsL (cs ++ r) p) = true
    simp only [Bool.or_eq_true] at h2 ⊢
    rcases h2 with h2 | h2
    · left
      have h3 : startsWithL ((c :: cs) ++ r) p = true := startsWithL_weaken r h2
      exact h3
    · right
      exact ih h2

theorem strContains_pre (p b : String) : strContains (p ++ b) p = true :=
  containsL_pre p.toList b.toList

theorem strContains_self (p : String) : strContains p p = true :=
  containsL_self p.toList

theorem strContains_left (a : String) {s p : String}
    (h : strContains s p = true) : strContains (a ++ s) p = true :=
  containsL_left a.toList h

theorem strContains_right (b : String) {s p : String}
    (h : strContains s p = true) : strContains (s ++ b) p = true :=
  containsL_right b.toList h

theorem findChain_contains (safe fs ps : String) (ss : Option String) (l : Option Nat) :
    strContains (findChain safe fs ps ss l) ("db[" ++ safe ++ "]") = true := by
  have hc0 : strContains ("db[" ++ safe ++ "].find(" ++ fs ++ ", " ++ ps ++ ")")
      ("db[" ++ safe ++ "]") = true := by
    apply strContains_right
    apply strContains_right
    apply strContains_right
    apply strContains_right
    rw [show ("].find(" : String) = "]" ++ ".find(" from rfl, ← strAppend_assoc]
    apply strContains_right
    exact strContains_self _
  cases ss with
  | none =>
    cases l with
    | none =>
      show strContains ("JSON.stringify(" ++
        ("db[" ++ safe ++ "].find(" ++ fs ++ ", " ++ ps ++ ")") ++ ".toArray())") _ = true
      exact strContains_right _ (strContains_left _ hc0)
    | some lim =>
      show strContains ("JSON.stringify(" ++
        ("db[" ++ safe ++ "].find(" ++ fs ++ ", " ++ ps ++ ")" ++ ".limit(" ++
          Nat.repr lim ++ ")") ++ ".toArray())") _ = true
      exact strContains_right _ (strContains_left _
        (strContains_right _ (strContains_right _ (strContains_right _ hc0))))
  | some sort =>
    cases l with
    | none =>
      show strContains ("JSON.stringify(" ++
        ("db[" ++ safe ++ "].find(" ++ fs ++ ", " ++ ps ++ ")" ++ ".sort(" ++ sort ++
          ")") ++ ".toArray())") _ = true
      exact strContains_right _ (strContains_left _
        (strContains_right _ (strContains_right _ (strContains_right _ hc0))))
    | some lim =>
      show strContains ("JSON.stringify(" ++
        ("db[" ++ safe ++ "].find(" ++ fs ++ ", " ++ ps ++ ")" ++ ".sort(" ++ sort ++
          ")" ++ ".limit(" ++ Nat.repr lim ++ ")") ++ ".toArray())") _ = true
      exact strContains_right _ (strContains_left _
        (strContains_right _ (strContains_right _ (strContains_right _
          (strContains_right _ (strContains_right _ (strContains_right _ hc0)))))))

theorem renderScript_contains (c : String) (m : MongoshCall) :
    strContains (renderScript c m) ("db[" ++ jsonEncodeString c ++ "]") = true := by
  cases m with
  | find fs ps ss l => exact findChain_contains _ _ _ _ _
  | aggregate ps =>
    show strContains ("JSON.stringify(db[" ++ jsonEncodeString c ++ "].aggregate(" ++
      ps ++ ").toArray())") _ = true
    apply strContains_right
    apply strContains_right
    rw [show ("].aggregate(" : String) = "]" ++ ".aggregate(" from rfl,
      ← strAppend_assoc]
    apply strContains_right
    rw [show ("JSON.stringify(db[" : String) = "JSON.stringify(" ++ "db[" from rfl,
      strAppend_assoc "JSON.stringify(" "db[" (jsonEncodeString c),
      strAppend_assoc "JSON.stringify(" ("db[" ++ jsonEncodeString c) "]"]
    apply strContains_left
    exact strContains_self _
  | countDocuments fs =>
    show strContains ("db[" ++ jsonEncodeString c ++ "].countDocuments(" ++ fs ++ ")")
      _ = true
    apply strContains_right
    apply strContains_right
    rw [show ("].countDocuments(" : String) = "]" ++ ".countDocuments(" from rfl,
      ← strAppend_assoc]
    apply strContains_right
    exact strContains_self _
  | distinct field fs =>
    show strContains ("JSON.stringify(db[" ++ jsonEncodeString c ++ "].distinct(" ++
      jsonEncodeString field ++ ", " ++ fs ++ "))") _ = true
    apply strContains_right
    apply strContains_right
    apply strContains_right
    apply strContains_right
    rw [show ("].distinct(" : String) = "]" ++ ".distinct(" from rfl,
      ← strAppend_assoc]
    apply strContains_right
    rw [show ("JSON.stringify(db[" : String) = "JSON.stringify(" ++ "db[" from rfl,
      strAppend_assoc "JSON.stringify(" "db[" (jsonEncodeString c),
      strAppend_assoc "JSON.stringify(" ("db[" ++ jsonEncodeString c) "]"]
    apply strContains_left
    exact strContains_self _

theorem script_contains_db (op : QueryOperation) (c q : String) (o : QueryOptions)
    (s : String) (h : to_mongosh_code op c q o = .ok s) :
    strContains s ("db[" ++ jsonEncodeString c ++ "]") = true := by
  rw [to_mongosh_factor] at h
  cases hm : mongoshEffective op q o with
  | error e => rw [hm] at h; exact absurd h (by simp [Except.map])
  | ok m =>
    rw [hm] at h
    simp only [Except.map] at h
    injection h with h2
    subst h2
    exact renderScript_contains c m

theorem renderScript_shape (c : String) (m : MongoshCall) :
    renderScript c m =
      scriptHead m ++ ("db[" ++ (jsonEncodeString c ++ scriptTail m)) := by
  cases m with
  | find fs ps ss l =>
    cases ss <;> cases l <;>
      (simp only [renderScript, findChain, scriptHead, scriptTail, sortSuffix,
        limitSuffix, strAppend_assoc]; try rfl)
  | aggregate fs =>
    simp only [renderScript, scriptHead, scriptTail, strAppend_assoc]; rfl
  | countDocuments fs =>
    simp only [renderScript, scriptHead, scriptTail, strAppend_assoc]; rfl
  | distinct f fs =>
    simp only [renderScript, scriptHead, scriptTail, strAppend_assoc]; rfl

theorem script_shape (op : QueryOperation) (c q : String) (o : QueryOptions)
    (s : String) (h : to_mongosh_code op c q o = .ok s) :
    ∃ m, mongoshEffective op q o = .ok m ∧
      s = scriptHead m ++ ("db[" ++ (jsonEncodeString c ++ scriptTail m)) := by
  rw [to_mongosh_factor] at h
  cases hm : mongoshEffective op q o with
  | error e => rw [hm] at h; exact absurd h (by simp [Except.map])
  | ok m =>
    rw [hm] at h
    simp only [Except.map] at h
    injection h with h2
    refine ⟨m, rfl, ?_⟩
    rw [← h2]
    exact renderScript_shape c m

theorem distinct_effective_shape (q : String) (o : QueryOptions) (m : MongoshCall)
    (h : mongoshEffective .distinct q o = .ok m) :
    ∃ f fs, m = .distinct f fs ∧ ∀ f0, o.distinct_field = some f0 → f = f0 := by
  cases hq : Json.parse q with
  | none => simp [mongoshEffective, hq] at h
  | some dp =>
    cases hd : o.distinct_field with
    | some f =>
      simp only [mongoshEffective, hq, hd, Except.ok.injEq] at h
      exact ⟨f, q, h.symm, fun f0 h0 => Option.some.inj h0⟩
    | none =>
      cases hg : (dp.get "field").bind Json.asStr with
      | none => simp [mongoshEffective, hq, hd, hg] at h
      | some f =>
        simp only [mongoshEffective, hq, hd, hg, Except.ok.injEq] at h
        exact ⟨f, _, h.symm, fun f0 h0 => Option.noConfusion h0⟩

theorem jsonEncodeString_quoted (n : String) :
    (jsonEncodeString n).toList.head? = some '"' ∧
    (jsonEncodeString n).toList.getLast? = some '"' := by
  constructor
  · rfl
  · show (('"' :: escapeList n.toList) ++ ['"']).getLast? = some '"'
    exact List.getLast?_concat _

theorem upsertList_absent (name d c o q : String) (t : Nat) (l : List SavedQuery)
    (h : ∀ x ∈ l, x.name ≠ name) :
    upsertList name d c o q t l = l ++ [⟨name, d, c, o, q, t, t⟩] := by
  induction l with
  | nil => rfl
  | cons x rest ih =>
    have hx : x.name ≠ name := h x (by simp)
    simp only [upsertList, if_neg hx, List.cons_append, List.cons.injEq, true_and]
    exact ih (fun y hy => h y (by simp [hy]))

theorem upsertList_other (name d c o q : String) (t : Nat) (l : List SavedQuery) :
    (upsertList name d c o q t l).filter (fun e => !(e.name == name)) =
      l.filter (fun e => !(e.name == name)) := by
  induction l with
  | nil => simp [upsertList]
  | cons x rest ih =>
    by_cases hx : x.name = name
    · simp only [upsertList, if_pos hx]
      rw [List.filter_cons, List.filter_cons]
      simp [hx, ih]
    · simp only [upsertList, if_neg hx]
      rw [List.filter_cons, List.filter_cons]
      simp [hx, ih]

theorem upsertList_filter (name d c o q : String) (t : Nat) (l : List SavedQuery)
    (hcount : (l.filter (fun e => e.name == name)).length ≤ 1) :
    (upsertList name d c o q t l).filter (fun e => e.name == name) =
      [⟨name, d, c, o, q,
        (match l.filter (fun e => e.name == name) with
         | [] => t
         | e :: _ => e.created_at), t⟩] := by
  induction l with
  | nil => simp [upsertList]
  | cons x rest ih =>
    by_cases hx : x.name = name
    · simp only [upsertList, if_pos hx]
      have hxf : (x :: rest).filter (fun e => e.name == name) =
          x :: rest.filter (fun e => e.name == name) := by
        rw [List.filter_cons]
        simp [hx]
      rw [hxf] at hcount ⊢
      have hrest : rest.filter (fun e => e.name == name) = [] := by
        simp only [List.length_cons] at hcount
        have := Nat.le_of_succ_le_succ hcount
        exact List.eq_nil_of_length_eq_zero (Nat.le_zero.mp this)
      rw [List.filter_cons]
      simp only [hx, beq_self_eq_true, if_true, hrest]
    · simp only [upsertList, if_neg hx]
      have hxf : (x :: rest).filter (fun e => e.name == name) =
          rest.filter (fun e => e.name == name) := by
        rw [List.filter_cons]
        simp [hx]
      rw [hxf] at hcount ⊢
      rw [List.filter_cons]
      simp [hx, ih hcount]

theorem find_healthy_pod_spec (ns dep : String) (pods : List Pod)
    (h : ∀ p ∈ pods, p.name.isSome = true) :
    find_healthy_pod ns dep pods =
      (match pods.find? podQualifies with
       | some p => .ok (p.name.getD "")
       | none => .error ("No healthy pods found for deployment '" ++ dep ++
           "' in namespace '" ++ ns ++ "'")) := by
  induction pods with
  | nil => rfl
  | cons p rest ih =>
    have hrest : ∀ q ∈ rest, q.name.isSome = true := fun q hq => h q (by simp [hq])
    obtain ⟨nm, hnm⟩ : ∃ nm, p.name = some nm := by
      cases hpn : p.name with
      | some nm => exact ⟨nm, rfl⟩
      | none => exact absurd (h p (by simp)) (by simp [hpn])
    have ihr := ih hrest
    show findHealthyLoop ns dep (p :: rest) = _
    cases hst : p.status with
    | none =>
      have hq : podQualifies p = false := by simp [podQualifies, hst]
      simp only [findHealthyLoop, hnm, hst, List.find?, hq]
      exact ihr
    | some status =>
      cases hph : status.phase with
      | some ph =>
        by_cases hrun : ph = "Running"
        · cases hcs : status.container_statuses with
          | none =>
            have hq : podQualifies p = false := by
              simp [podQualifies, hst, hph, hcs]
            simp only [findHealthyLoop, hnm, hst, hph, hrun, List.find?, hq]
            simp only [bne_self_eq_false, if_false, hcs]
            exact ihr
          | some css =>
            by_cases hr : css.all (fun cs => cs.ready) = true
            · have hq : podQualifies p = true := by
                simp [podQualifies, hst, hph, hcs, hrun, hr]
              simp only [findHealthyLoop, hnm, hst, hph, hrun, List.find?, hq]
              simp only [bne_self_eq_false, if_false, hcs, hr, if_true, hnm]
              rfl
            · have hq : podQualifies p = false := by
                simp [podQualifies, hst, hph, hcs, hr]
              simp only [findHealthyLoop, hnm, hst, hph, hrun, List.find?, hq]
              simp only [bne_self_eq_false, if_false, hcs]
              rw [if_neg hr]
              exact ihr
        · have hq : podQualifies p = false := by
            simp [podQualifies, hst, hph, hrun]
          have hbne : (ph != "Running") = true := by
            simp [bne_iff_ne, hrun]
          simp only [findHealthyLoop, hnm, hst, hph, List.find?, hq, hbne, if_true]
          exact ihr
      | none =>
        cases hcs : status.container_statuses with
        | none =>
          have hq : podQualifies p = false := by
            simp [podQualifies, hst, hph, hcs]
          simp only [findHealthyLoop, hnm, hst, hph, List.find?, hq, if_false, hcs]
          exact ihr
        | some css =>
          by_cases hr : css.all (fun cs => cs.ready) = true
          · have hq : podQualifies p = true := by
              simp [podQualifies, hst, hph, hcs, hr]
            simp only [findHealthyLoop, hnm, hst, hph, List.find?, hq, if_false, hcs,
              hr, if_true]
            rfl
          · have hq : podQualifies p = false := by
              simp [podQualifies, hst, hph, hcs, hr]
            simp only [findHealthyLoop, hnm, hst, hph, List.find?, hq, if_false, hcs]
            rw [if_neg hr]
            exact ihr

/-! ## Claim theorems -/

/-- C7: upserting "q1" and then upserting "q1" again with a different description
leaves exactly one entry named "q1" carrying the second description, with
created-at unchanged from the first upsert and updated-at advanced; entries with
other names are unchanged, and upserting an absent name appends a new entry with
created-at equal to updated-at.  The store is assumed to satisfy the documented
invariant that a name occurs at most once. -/
theorem c7_upsert (qs : SavedQueries) (d1 d2 c1 c2 o1 o2 q1 q2 : String) (t1 t2 : Nat)
    (hcount : (qs.queries.filter (fun e => e.name == "q1")).length ≤ 1)
    (ht : t1 < t2) :
    ∃ e1 e2,
      ((qs.upsert_query "q1" d1 c1 o1 q1 t1).queries.filter
        (fun e => e.name == "q1")) = [e1] ∧
      (((qs.upsert_query "q1" d1 c1 o1 q1 t1).upsert_query "q1" d2 c2 o2 q2
        t2).queries.filter (fun e => e.name == "q1")) = [e2] ∧
      e2.description = d2 ∧ e2.created_at = e1.created_at ∧
      e2.updated_at = t2 ∧ e1.updated_at < e2.updated_at ∧
      (((qs.upsert_query "q1" d1 c1 o1 q1 t1).upsert_query "q1" d2 c2 o2 q2
        t2).queries.filter (fun e => !(e.name == "q1"))) =
        qs.queries.filter (fun e => !(e.name == "q1")) ∧
      (∀ (nm d c o q : String) (t : Nat), (∀ x ∈ qs.queries, x.name ≠ nm) →
        (qs.upsert_query nm d c o q t).queries =
          qs.queries ++ [⟨nm, d, c, o, q, t, t⟩]) := by
  have h1 := upsertList_filter "q1" d1 c1 o1 q1 t1 qs.queries hcount
  have hcount1 : ((upsertList "q1" d1 c1 o1 q1 t1 qs.queries).filter
      (fun e => e.name == "q1")).length ≤ 1 := by
    rw [h1]; simp
  have h2 := upsertList_filter "q1" d2 c2 o2 q2 t2
    (upsertList "q1" d1 c1 o1 q1 t1 qs.queries) hcount1
  rw [h1] at h2
  refine ⟨_, _, h1, h2, rfl, rfl, rfl, ht, ?_, ?_⟩
  · show (upsertList "q1" d2 c2 o2 q2 t2
      (upsertList "q1" d1 c1 o1 q1 t1 qs.queries)).filter
        (fun e => !(e.name == "q1")) = _
    rw [upsertList_other, upsertList_other]
  · intro nm d c o q t habs
    show upsertList nm d c o q t qs.queries = _
    exact upsertList_absent nm d c o q t qs.queries habs

/-- C7 witness: the claim instantiated on the empty store with timestamps 1 and 2. -/
theorem c7_upsert_witness :
    (((⟨[]⟩ : SavedQueries).queries.filter (fun e => e.name == "q1")).length ≤ 1) ∧
    (1 : Nat) < 2 ∧
    (∃ e1 e2,
      (((⟨[]⟩ : SavedQueries).upsert_query "q1" "d1" "users" "find" "q" 1).queries.filter
        (fun e => e.name == "q1")) = [e1] ∧
      ((((⟨[]⟩ : SavedQueries).upsert_query "q1" "d1" "users" "find" "q" 1).upsert_query
        "q1" "d2" "users" "find" "q" 2).queries.filter
          (fun e => e.name == "q1")) = [e2] ∧
      e2.description = "d2" ∧ e2.created_at = e1.created_at ∧
      e2.updated_at = 2 ∧ e1.updated_at < e2.updated_at ∧
      ((((⟨[]⟩ : SavedQueries).upsert_query "q1" "d1" "users" "find" "q"
        1).upsert_query "q1" "d2" "users" "find" "q" 2).queries.filter
          (fun e => !(e.name == "q1"))) =
        (⟨[]⟩ : SavedQueries).queries.filter (fun e => !(e.name == "q1")) ∧
      (∀ (nm d c o q : String) (t : Nat),
        (∀ x ∈ (⟨[]⟩ : SavedQueries).queries, x.name ≠ nm) →
        ((⟨[]⟩ : SavedQueries).upsert_query nm d c o q t).queries =
          (⟨[]⟩ : SavedQueries).queries ++ [⟨nm, d, c, o, q, t, t⟩])) :=
  ⟨by simp, by omega,
    c7_upsert ⟨[]⟩ "d1" "d2" "users" "users" "find" "find" "q" "q" 1 2 (by simp)
      (by omega)⟩

/-- C8 counterexample: a listed pod whose status carries no phase at all but
whose container statuses are all ready is returned by `find_healthy_pod`,
although its phase is not "running" as the claim requires. -/
theorem c8_counterexample :
    find_healthy_pod "prod" "mongo"
      [⟨some "p1", some ⟨none, some [⟨true⟩]⟩⟩] = .ok "p1" ∧
    (⟨some "p1", some ⟨none, some [⟨true⟩]⟩⟩ : Pod).status.map
      (fun st => st.phase) = some none ∧
    (some (none : Option String)) ≠ some (some "Running") := by
  exact ⟨rfl, rfl, by simp⟩

/-- C8 amended: `find_healthy_pod` scans in listing order and returns the first
pod that has a status, whose phase — when present — is "Running" (a missing
phase passes the check), and whose container-status list is present with every
entry ready (a missing list fails the check); a pod with no name aborts the
scan; with three candidates of which only the second qualifies, the second is
returned; if none qualifies the error names both the namespace and the
deployment label. -/
theorem c8_amended :
    (∀ (ns dep : String) (pods : List Pod), (∀ p ∈ pods, p.name.isSome = true) →
      find_healthy_pod ns dep pods =
        (match pods.find? podQualifies with
         | some p => .ok (p.name.getD "")
         | none => .error ("No healthy pods found for deployment '" ++ dep ++
             "' in namespace '" ++ ns ++ "'"))) ∧
    (find_healthy_pod "ns" "dep"
      [⟨some "a", some ⟨some "Pending", some [⟨true⟩]⟩⟩,
       ⟨some "b", some ⟨some "Running", some [⟨true⟩]⟩⟩,
       ⟨some "c", some ⟨some "Running", some [⟨false⟩]⟩⟩] = .ok "b") ∧
    (∀ ns dep : String,
      strContains ("No healthy pods found for deployment '" ++ dep ++
        "' in namespace '" ++ ns ++ "'") dep = true ∧
      strContains ("No healthy pods found for deployment '" ++ dep ++
        "' in namespace '" ++ ns ++ "'") ns = true) := by
  refine ⟨find_healthy_pod_spec, rfl, ?_⟩
  intro ns dep
  constructor
  · exact strContains_right _ (strContains_right _ (strContains_right _
      (strContains_left _ (strContains_self dep))))
  · exact strContains_right _ (strContains_left _ (strContains_self ns))

/-- C8 witness: the characterization applied to a concrete pod list. -/
theorem c8_amended_witness :
    (∀ p ∈ [(⟨some "x", none⟩ : Pod)], p.name.isSome = true) ∧
    find_healthy_pod "n1" "d1" [(⟨some "x", none⟩ : Pod)] =
      (match [(⟨some "x", none⟩ : Pod)].find? podQualifies with
       | some p => .ok (p.name.getD "")
       | none => .error ("No healthy pods found for deployment '" ++ "d1" ++
           "' in namespace '" ++ "n1" ++ "'")) :=
  ⟨by simp, c8_amended.1 "n1" "d1" [⟨some "x", none⟩] (by simp)⟩

/-- C9 counterexample: the direct backend's timeout message has the shape
"timed out after N seconds", but the cluster backend's timeout context is the
fixed text "Command execution timed out", which does not contain that shape; the
two backends do not report the same message shape. -/
theorem c9_counterexample :
    strContains (direct_timeout_message 30) "timed out after 30 seconds" = true ∧
    strContains k8s_timeout_context_message "timed out after 30 seconds" = false ∧
    direct_timeout_message 30 ≠ k8s_timeout_context_message := by
  exact ⟨by decide, by decide, by decide⟩

/-- C9 amended: on timeout the direct backend reports
"Query timed out after N seconds" (containing the timeout value), while the
cluster backend's exec path attaches the fixed context
"Command execution timed out", which contains no "after N seconds" part. -/
theorem c9_amended (n : Nat) :
    direct_timeout_message n =
      "Query timed out after " ++ Nat.repr n ++ " seconds" ∧
    strContains (direct_timeout_message n)
      ("after " ++ Nat.repr n ++ " seconds") = true ∧
    k8s_timeout_context_message = "Command execution timed out" ∧
    strContains k8s_timeout_context_message "after" = false := by
  refine ⟨rfl, ?_, rfl, by decide⟩
  show strContains (("Query timed out after " ++ Nat.repr n) ++ " seconds")
    (("after " ++ Nat.repr n) ++ " seconds") = true
  rw [show ("Query timed out after " : String) = "Query timed out " ++ "after "
      from rfl,
    strAppend_assoc "Query timed out " "after " (Nat.repr n),
    strAppend_assoc "Query timed out " ("after " ++ Nat.repr n) " seconds"]
  exact strContains_left _ (strContains_self _)

/-- C10: `QueryOperation.from_str` succeeds exactly when the lowercased input is
one of "find", "aggregate", "countdocuments", "distinct" (so "FIND" and
"CountDocuments" are accepted), and on any other string it returns an error
naming the invalid operation and listing the valid ones. -/
theorem c10_from_str :
    (∀ s : String, (QueryOperation.from_str s).isOk = true ↔
      (toLowerStr s = "find" ∨ toLowerStr s = "aggregate" ∨
        toLowerStr s = "countdocuments" ∨ toLowerStr s = "distinct")) ∧
    QueryOperation.from_str "FIND" = .ok .find ∧
    QueryOperation.from_str "CountDocuments" = .ok .countDocuments ∧
    (∀ s : String, toLowerStr s ≠ "find" → toLowerStr s ≠ "aggregate" →
      toLowerStr s ≠ "countdocuments" → toLowerStr s ≠ "distinct" →
      QueryOperation.from_str s = .error ("Invalid operation '" ++ s ++
        "'. Must be one of: find, aggregate, countDocuments, distinct")) := by
  refine ⟨?_, rfl, rfl, ?_⟩
  · intro s
    unfold QueryOperation.from_str
    by_cases h1 : toLowerStr s = "find"
    · simp [h1, Except.isOk, Except.toBool]
    · by_cases h2 : toLowerStr s = "aggregate"
      · simp [h1, h2, Except.isOk, Except.toBool]
      · by_cases h3 : toLowerStr s = "countdocuments"
        · simp [h1, h2, h3, Except.isOk, Except.toBool]
        · by_cases h4 : toLowerStr s = "distinct"
          · simp [h1, h2, h3, h4, Except.isOk, Except.toBool]
          · simp [h1, h2, h3, h4, Except.isOk, Except.toBool]
  · intro s h1 h2 h3 h4
    unfold QueryOperation.from_str
    simp [h1, h2, h3, h4]

/-- C10 witness: the error branch applied to the concrete input "mapReduce". -/
theorem c10_from_str_witness :
    toLowerStr "mapReduce" ≠ "find" ∧ toLowerStr "mapReduce" ≠ "aggregate" ∧
    toLowerStr "mapReduce" ≠ "countdocuments" ∧
    toLowerStr "mapReduce" ≠ "distinct" ∧
    QueryOperation.from_str "mapReduce" = .error ("Invalid operation '" ++
      "mapReduce" ++ "'. Must be one of: find, aggregate, countDocuments, distinct") :=
  ⟨by decide, by decide, by decide, by decide,
    c10_from_str.2.2.2 "mapReduce" (by decide) (by decide) (by decide) (by decide)⟩

/-- C1 counterexample: Find with queryText "[1]" — valid JSON that is not an
object — is accepted by the remote-eval renderer but rejected by the driver-call
renderer, so the two renderers do not accept the same set of inputs. -/
theorem c1_counterexample :
    (to_mongosh_code .find "users" "[1]" ⟨none, none, none, none⟩).isOk = true ∧
    (execute_operation .find "[1]" ⟨none, none, none, none⟩).isOk = false :=
  ⟨rfl, rfl⟩

/-- C1 amended: every input the driver-call renderer accepts is also accepted by
the remote-eval renderer, and on such inputs the two derive the same effective
parameters — the spliced filter/sort/projection texts parse back to the driver's
typed arguments, the limits coincide, and for Distinct the field and filter
agree (`ParamsAgree`); the acceptance sets themselves differ (see the
counterexample). -/
theorem c1_amended (op : QueryOperation) (collection q : String) (o : QueryOptions)
    (call : DriverCall) (h : execute_operation op q o = .ok call) :
    ∃ m, mongoshEffective op q o = .ok m ∧ ParamsAgree call m ∧
      to_mongosh_code op collection q o = .ok (renderScript collection m) := by
  obtain ⟨m, hm, ha⟩ := driver_to_mongosh op q o call h
  refine ⟨m, hm, ha, ?_⟩
  rw [to_mongosh_factor, hm]
  rfl

/-- C1 witness: the equivalence applied to Find with the empty filter. -/
theorem c1_amended_witness :
    execute_operation .find "\x7b\x7d" ⟨none, none, none, none⟩ =
      .ok (.find (.obj []) none none none) ∧
    (∃ m, mongoshEffective .find "\x7b\x7d" ⟨none, none, none, none⟩ = .ok m ∧
      ParamsAgree (.find (.obj []) none none none) m ∧
      to_mongosh_code .find "users" "\x7b\x7d" ⟨none, none, none, none⟩ =
        .ok (renderScript "users" m)) :=
  ⟨rfl, c1_amended .find "users" "\x7b\x7d" ⟨none, none, none, none⟩ _ rfl⟩

/-- C2: every successful remote-eval script embeds the collection name only
through JSON-string escaping: the script decomposes as a head, the bracket
subscript `db[<escaped collection>]`, and a tail, where head and tail are
functions of the effective call alone (which never mentions the collection),
so no bare dot-member access to the name can occur; for Distinct, the field
name likewise enters the tail only as the escaped quoted first argument of
`.distinct(`; the escaped text of any name starts and ends with a double
quote and parses back to exactly the original name; and the collection
`a"; drop(); //` yields a script containing the literal escaped
bracket-subscript sequence and no bare-dot reference to `a`. -/
theorem c2_escaping :
    (∀ (op : QueryOperation) (c q : String) (o : QueryOptions) (s : String),
      to_mongosh_code op c q o = .ok s →
      strContains s ("db[" ++ jsonEncodeString c ++ "]") = true ∧
      ∃ m, mongoshEffective op q o = .ok m ∧
        s = scriptHead m ++ ("db[" ++ (jsonEncodeString c ++ scriptTail m))) ∧
    (∀ (c q : String) (o : QueryOptions) (s : String),
      to_mongosh_code .distinct c q o = .ok s →
      ∃ f fs, mongoshEffective .distinct q o = .ok (.distinct f fs) ∧
        (∀ f0, o.distinct_field = some f0 → f = f0) ∧
        s = "JSON.stringify(" ++ ("db[" ++ (jsonEncodeString c ++
          ("].distinct(" ++ (jsonEncodeString f ++ (", " ++ (fs ++ "))"))))))) ∧
    (∀ n : String, Json.parse (jsonEncodeString n) = some (.str n) ∧
      (jsonEncodeString n).toList.head? = some '"' ∧
      (jsonEncodeString n).toList.getLast? = some '"') ∧
    to_mongosh_code .find "a\"; drop(); //" "\x7b\x7d" ⟨none, none, none, none⟩ =
      .ok "JSON.stringify(db[\"a\\\"; drop(); //\"].find(\x7b\x7d, \x7b\x7d).toArray())" ∧
    strContains
      "JSON.stringify(db[\"a\\\"; drop(); //\"].find(\x7b\x7d, \x7b\x7d).toArray())"
      "[\"a\\\"; drop(); //\"]" = true ∧
    strContains
      "JSON.stringify(db[\"a\\\"; drop(); //\"].find(\x7b\x7d, \x7b\x7d).toArray())"
      "db.a" = false := by
  refine ⟨?_, ?_, ?_, rfl, by decide, by decide⟩
  · intro op c q o s h
    exact ⟨script_contains_db op c q o s h, script_shape op c q o s h⟩
  · intro c q o s h
    obtain ⟨m, hm, hs⟩ := script_shape .distinct c q o s h
    obtain ⟨f, fs, hmeq, hopt⟩ := distinct_effective_shape q o m hm
    subst hmeq
    exact ⟨f, fs, hm, hopt, hs⟩
  · intro n
    exact ⟨Json.parse_toStr (.str n), (jsonEncodeString_quoted n).1,
      (jsonEncodeString_quoted n).2⟩

/-- C2 witness: the shape decomposition applied to a concrete countDocuments
script, and the Distinct field embedding applied to a concrete distinct
script. -/
theorem c2_escaping_witness :
    (to_mongosh_code .countDocuments "orders" "\x7b\x7d" ⟨none, none, none, none⟩ =
      .ok "db[\"orders\"].countDocuments(\x7b\x7d)" ∧
    (strContains "db[\"orders\"].countDocuments(\x7b\x7d)"
        ("db[" ++ jsonEncodeString "orders" ++ "]") = true ∧
      ∃ m, mongoshEffective .countDocuments "\x7b\x7d" ⟨none, none, none, none⟩ =
          .ok m ∧
        "db[\"orders\"].countDocuments(\x7b\x7d)" =
          scriptHead m ++ ("db[" ++ (jsonEncodeString "orders" ++ scriptTail m)))) ∧
    to_mongosh_code .distinct "users" "\x7b\x7d" ⟨none, none, none, some "country"⟩ =
      .ok "JSON.stringify(db[\"users\"].distinct(\"country\", \x7b\x7d))" ∧
    (∃ f fs, mongoshEffective .distinct "\x7b\x7d"
          ⟨none, none, none, some "country"⟩ = .ok (.distinct f fs) ∧
      (∀ f0, (some "country" : Option String) = some f0 → f = f0) ∧
      "JSON.stringify(db[\"users\"].distinct(\"country\", \x7b\x7d))" =
        "JSON.stringify(" ++ ("db[" ++ (jsonEncodeString "users" ++
          ("].distinct(" ++ (jsonEncodeString f ++ (", " ++ (fs ++ "))"))))))) :=
  ⟨⟨rfl,
    c2_escaping.1 .countDocuments "orders" "\x7b\x7d" ⟨none, none, none, none⟩
      _ rfl⟩,
   rfl,
   c2_escaping.2.1 "users" "\x7b\x7d" ⟨none, none, none, some "country"⟩ _ rfl⟩

/-- C3 counterexample: for Aggregate with queryText `\x7b\x7d` (valid JSON but
not an array) the remote-eval renderer succeeds while the driver-call renderer
rejects — the claim that both renderers reject is false. -/
theorem c3_counterexample :
    (to_mongosh_code .aggregate "users" "\x7b\x7d" ⟨none, none, none, none⟩).isOk
      = true ∧
    (execute_operation .aggregate "\x7b\x7d" ⟨none, none, none, none⟩).isOk
      = false :=
  ⟨rfl, rfl⟩

/-- C3 amended: for Aggregate the driver-call renderer rejects every queryText
that parses as JSON but not as an array, while the remote-eval renderer accepts
any queryText that is valid JSON; no QueryOptions field affects the Aggregate
output of either renderer. -/
theorem c3_amended :
    (∀ (q : String) (o : QueryOptions) (j : Json), Json.parse q = some j →
      (∀ es, j ≠ .arr es) →
      ∃ e, execute_operation .aggregate q o = .error e) ∧
    (∀ (c q : String) (o : QueryOptions) (j : Json), Json.parse q = some j →
      ∃ s, to_mongosh_code .aggregate c q o = .ok s) ∧
    (∀ (c q : String) (o o2 : QueryOptions),
      to_mongosh_code .aggregate c q o = to_mongosh_code .aggregate c q o2 ∧
      execute_operation .aggregate q o = execute_operation .aggregate q o2) := by
  refine ⟨?_, ?_, ?_⟩
  · intro q o j hq hne
    simp only [execute_operation, bind, Except.bind]
    unfold parseDocListE
    rw [hq]
    cases j with
    | arr es => exact absurd rfl (hne es)
    | null => exact ⟨_, rfl⟩
    | bool b => exact ⟨_, rfl⟩
    | num n => exact ⟨_, rfl⟩
    | str s => exact ⟨_, rfl⟩
    | obj fs => exact ⟨_, rfl⟩
  · intro c q o j hq
    refine ⟨renderScript c (.aggregate q), ?_⟩
    rw [to_mongosh_factor]
    have hm : mongoshEffective .aggregate q o = .ok (.aggregate q) := by
      unfold mongoshEffective
      rw [hq]
    rw [hm]
    rfl
  · intro c q o o2
    exact ⟨rfl, rfl⟩

/-- C3 witness: the amended claim applied to the input `\x7b\x7d`. -/
theorem c3_amended_witness :
    Json.parse "\x7b\x7d" = some (.obj []) ∧
    (∀ es, (Json.obj []) ≠ .arr es) ∧
    (∃ e, execute_operation .aggregate "\x7b\x7d" ⟨none, none, none, none⟩ =
      .error e) ∧
    (∃ s, to_mongosh_code .aggregate "users" "\x7b\x7d" ⟨none, none, none, none⟩ =
      .ok s) :=
  ⟨rfl, fun _ h => Json.noConfusion h,
    c3_amended.1 "\x7b\x7d" ⟨none, none, none, none⟩ (.obj []) rfl
      (fun _ h => Json.noConfusion h),
    c3_amended.2.1 "users" "\x7b\x7d" ⟨none, none, none, none⟩ (.obj []) rfl⟩

/-- C4: the new Distinct shape (distinct-field option plus raw filter) compiles
identically to the legacy shape (field/query keys inside the JSON text) on both
renderers, and whenever the distinct-field option is set it takes precedence:
the effective field is the option's value and the effective filter is the raw
queryText, regardless of any keys inside the queryText. -/
theorem c4_distinct :
    (to_mongosh_code .distinct "users" "\x7b\"active\":true\x7d"
        ⟨none, none, none, some "country"⟩ =
      to_mongosh_code .distinct "users"
        "\x7b\"field\":\"country\",\"query\":\x7b\"active\":true\x7d\x7d"
        ⟨none, none, none, none⟩) ∧
    (execute_operation .distinct "\x7b\"active\":true\x7d"
        ⟨none, none, none, some "country"⟩ =
      execute_operation .distinct
        "\x7b\"field\":\"country\",\"query\":\x7b\"active\":true\x7d\x7d"
        ⟨none, none, none, none⟩) ∧
    (∀ (q : String) (o : QueryOptions) (f : String) (fs : List (String × Json)),
      o.distinct_field = some f → Json.parse q = some (.obj fs) →
      mongoshEffective .distinct q o = .ok (.distinct f q) ∧
      execute_operation .distinct q o = .ok (.distinct f (.obj fs))) := by
  refine ⟨rfl, rfl, ?_⟩
  intro q o f fs hd hq
  constructor
  · unfold mongoshEffective
    rw [hq, hd]
  · simp only [execute_operation, hd, bind, Except.bind]
    unfold parseDocE
    rw [hq]
    rfl

/-- C4 witness: precedence applied to the filter from the claim. -/
theorem c4_distinct_witness :
    (⟨none, none, none, some "country"⟩ : QueryOptions).distinct_field =
      some "country" ∧
    Json.parse "\x7b\"active\":true\x7d" = some (.obj [("active", .bool true)]) ∧
    (mongoshEffective .distinct "\x7b\"active\":true\x7d"
        ⟨none, none, none, some "country"⟩ =
      .ok (.distinct "country" "\x7b\"active\":true\x7d") ∧
    execute_operation .distinct "\x7b\"active\":true\x7d"
        ⟨none, none, none, some "country"⟩ =
      .ok (.distinct "country" (.obj [("active", .bool true)]))) :=
  ⟨rfl, rfl, c4_distinct.2.2 "\x7b\"active\":true\x7d"
    ⟨none, none, none, some "country"⟩ "country" [("active", .bool true)] rfl rfl⟩

/-- C5: the output classifier errors on empty trimmed output with a message
naming the collection and database and recommending list_collections; on a
recognized error marker it classifies in the fixed priority order not-found >
authentication-failure > timeout > syntax/invalid-query > generic (text
containing both MongoServerError and "ns not found" is classified not-found
with a list-collections hint, regardless of other markers); every
classification preserves the raw trimmed text; bare numeric "42" is returned
unchanged. -/
theorem c5_classifier :
    (∀ raw c d : String, strTrim raw = "" →
      parse_mongosh_output raw c d = .error (emptyOutputMsg c d)) ∧
    (∀ c d : String, strContains (emptyOutputMsg c d) c = true ∧
      strContains (emptyOutputMsg c d) d = true ∧
      strContains (emptyOutputMsg c d) "list_collections" = true) ∧
    (∀ raw c d : String, strTrim raw ≠ "" →
      (strContains (strTrim raw) "MongoServerError" ||
        strContains (strTrim raw) "MongoError") = true →
      (strContains (strTrim raw) "ns not found" ||
        strContains (strTrim raw) "doesn't exist") = true →
      parse_mongosh_output raw c d = .error (notFoundMsg c d (strTrim raw))) ∧
    (∀ raw c d : String, strTrim raw ≠ "" →
      (strContains (strTrim raw) "MongoServerError" ||
        strContains (strTrim raw) "MongoError") = true →
      (strContains (strTrim raw) "ns not found" ||
        strContains (strTrim raw) "doesn't exist") = false →
      strContains (strTrim raw) "Authentication failed" = true →
      parse_mongosh_output raw c d = .error (authFailedMsg (strTrim raw))) ∧
    (∀ raw c d : String, strTrim raw ≠ "" →
      (strContains (strTrim raw) "MongoServerError" ||
        strContains (strTrim raw) "MongoError") = true →
      (strContains (strTrim raw) "ns not found" ||
        strContains (strTrim raw) "doesn't exist") = false →
      strContains (strTrim raw) "Authentication failed" = false →
      (strContains (strTrim raw) "timed out" ||
        strContains (strTrim raw) "timeout") = true →
      parse_mongosh_output raw c d = .error (timeoutMsg (strTrim raw))) ∧
    (∀ raw c d : String, strTrim raw ≠ "" →
      (strContains (strTrim raw) "MongoServerError" ||
        strContains (strTrim raw) "MongoError") = true →
      (strContains (strTrim raw) "ns not found" ||
        strContains (strTrim raw) "doesn't exist") = false →
      strContains (strTrim raw) "Authentication failed" = false →
      (strContains (strTrim raw) "timed out" ||
        strContains (strTrim raw) "timeout") = false →
      (strContains (strTrim raw) "SyntaxError" ||
        strContains (strTrim raw) "Invalid") = true →
      parse_mongosh_output raw c d = .error (syntaxMsg (strTrim raw))) ∧
    (∀ raw c d : String, strTrim raw ≠ "" →
      (strContains (strTrim raw) "MongoServerError" ||
        strContains (strTrim raw) "MongoError") = true →
      (strContains (strTrim raw) "ns not found" ||
        strContains (strTrim raw) "doesn't exist") = false →
      strContains (strTrim raw) "Authentication failed" = false →
      (strContains (strTrim raw) "timed out" ||
        strContains (strTrim raw) "timeout") = false →
      (strContains (strTrim raw) "SyntaxError" ||
        strContains (strTrim raw) "Invalid") = false →
      parse_mongosh_output raw c d = .error ("MongoDB error: " ++ strTrim raw)) ∧
    (∀ c d t : String, strContains (notFoundMsg c d t) t = true ∧
      strContains (notFoundMsg c d t) "list_collections" = true ∧
      strContains (authFailedMsg t) t = true ∧
      strContains (timeoutMsg t) t = true ∧
      strContains (syntaxMsg t) t = true ∧
      strContains ("MongoDB error: " ++ t) t = true) ∧
    parse_mongosh_output "42" "users" "mydb" = .ok "42" := by
  refine ⟨?_, ?_, ?_, ?_, ?_, ?_, ?_, ?_, rfl⟩
  · intro raw c d h
    simp only [parse_mongosh_output]
    rw [if_pos h]
  · intro c d
    refine ⟨?_, ?_, ?_⟩
    · exact strContains_right _ (strContains_right _ (strContains_right _
        (strContains_left _ (strContains_self c))))
    · exact strContains_right _ (strContains_left _ (strContains_self d))
    · exact strContains_left _ (show strContains
        "'\n- Use list_collections to verify the exact collection name (case-sensitive)"
        "list_collections" = true from by decide)
  · intro raw c d h1 h2 h3
    simp only [parse_mongosh_output]
    rw [if_neg h1, if_pos h2, if_pos h3]
  · intro raw c d h1 h2 h3 h4
    simp only [parse_mongosh_output]
    rw [if_neg h1, if_pos h2, if_neg (by simp [h3]), if_pos h4]
  · intro raw c d h1 h2 h3 h4 h5
    simp only [parse_mongosh_output]
    rw [if_neg h1, if_pos h2, if_neg (by simp [h3]), if_neg (by simp [h4]),
      if_pos h5]
  · intro raw c d h1 h2 h3 h4 h5 h6
    simp only [parse_mongosh_output]
    rw [if_neg h1, if_pos h2, if_neg (by simp [h3]), if_neg (by simp [h4]),
      if_neg (by simp [h5]), if_pos h6]
  · intro raw c d h1 h2 h3 h4 h5 h6
    simp only [parse_mongosh_output]
    rw [if_neg h1, if_pos h2, if_neg (by simp [h3]), if_neg (by simp [h4]),
      if_neg (by simp [h5]), if_neg (by simp [h6])]
  · intro c d t
    refine ⟨?_, ?_, ?_, ?_, ?_, ?_⟩
    · exact strContains_left _ (strContains_self t)
    · exact strContains_right _ (strContains_left _ (show strContains
        "'.\nSOLUTION: Use list_collections to get exact collection names (they are case-sensitive).\nRaw error: "
        "list_collections" = true from by decide))
    · exact strContains_left _ (strContains_self t)
    · exact strContains_left _ (strContains_self t)
    · exact strContains_left _ (strContains_self t)
    · exact strContains_left _ (strContains_self t)

/-- C5 witness: priority applied to text containing both the not-found marker
and the authentication marker — classified as not-found. -/
theorem c5_classifier_witness :
    strTrim "MongoServerError: ns not found (Authentication failed)" ≠ "" ∧
    (strContains (strTrim "MongoServerError: ns not found (Authentication failed)")
      "MongoServerError" ||
     strContains (strTrim "MongoServerError: ns not found (Authentication failed)")
      "MongoError") = true ∧
    (strContains (strTrim "MongoServerError: ns not found (Authentication failed)")
      "ns not found" ||
     strContains (strTrim "MongoServerError: ns not found (Authentication failed)")
      "doesn't exist") = true ∧
    parse_mongosh_output "MongoServerError: ns not found (Authentication failed)"
      "users" "mydb" =
      .error (notFoundMsg "users" "mydb"
        (strTrim "MongoServerError: ns not found (Authentication failed)")) :=
  ⟨by decide, by decide, by decide,
    c5_classifier.2.2.1 "MongoServerError: ns not found (Authentication failed)"
      "users" "mydb" (by decide) (by decide) (by decide)⟩

/-- C6 counterexample: with variables a ↦ "\x7b\x7bb\x7d\x7d" and b ↦ "x", the
template "\x7b\x7ba\x7d\x7d" substitutes to "x": the occurrence of the `a`
placeholder does not end up as its mapped value taken as literal text, because
the replacement introduced for `a` is rewritten again by the later variable. -/
theorem c6_counterexample :
    substitute_placeholders "\x7b\x7ba\x7d\x7d"
      [("a", "\x7b\x7bb\x7d\x7d"), ("b", "x")] = .ok "x" ∧
    ("x" : String) ≠ "\x7b\x7bb\x7d\x7d" :=
  ⟨rfl, by decide⟩

/-- C6 amended: substitution fails exactly when some discovered placeholder has
no entry in the variables, and the failure lists exactly the missing names (all
of them); on success the variables' patterns are replaced by sequential text
replacement, which matches per-occurrence literal replacement when no mapped
value itself contains placeholder syntax — in particular the claimed example
substitutes correctly, and the empty mapping fails listing exactly
["userId"]. -/
theorem c6_amended :
    (∀ (q : String) (vs : List (String × String)),
      (∃ m, substitute_placeholders q vs = .error m) ↔
        ∃ p ∈ findPlaceholders q, ∀ pr ∈ vs, pr.1 ≠ p) ∧
    (∀ (q : String) (vs : List (String × String)) (m : List String),
      substitute_placeholders q vs = .error m →
      ∀ p, p ∈ m ↔ (p ∈ findPlaceholders q ∧ ∀ pr ∈ vs, pr.1 ≠ p)) ∧
    substitute_placeholders
      "\x7b\"userId\":\"\x7b\x7buserId\x7d\x7d\",\"active\":true\x7d"
      [("userId", "12345")] = .ok "\x7b\"userId\":\"12345\",\"active\":true\x7d" ∧
    substitute_placeholders
      "\x7b\"userId\":\"\x7b\x7buserId\x7d\x7d\",\"active\":true\x7d"
      [] = .error ["userId"] := by
  refine ⟨?_, ?_, rfl, rfl⟩
  · intro q vs
    have hpred : ∀ p, (!(vs.any (fun v => v.1 == p))) = true ↔
        ∀ pr ∈ vs, pr.1 ≠ p := by
      intro p
      simp [List.any_eq_false]
    simp only [substitute_placeholders]
    by_cases hm : ((findPlaceholders q).filter
        (fun p => !(vs.any (fun v => v.1 == p)))).isEmpty = true
    · rw [if_pos hm]
      constructor
      · rintro ⟨m, hmm⟩
        exact absurd hmm (by simp)
      · rintro ⟨p, hp, hnone⟩
        have h1 : (!(vs.any (fun v => v.1 == p))) = true := (hpred p).mpr hnone
        have h2 := List.isEmpty_iff.mp hm
        have h3 := List.filter_eq_nil_iff.mp h2 p hp
        exact absurd h1 h3
    · rw [if_neg hm]
      constructor
      · intro _
        have h2 : ((findPlaceholders q).filter
            (fun p => !(vs.any (fun v => v.1 == p)))) ≠ [] := by
          intro hn
          exact hm (by simp [hn])
        obtain ⟨p, hp⟩ := List.exists_mem_of_ne_nil _ h2
        have h3 := List.mem_filter.mp hp
        exact ⟨p, h3.1, (hpred p).mp h3.2⟩
      · intro _
        exact ⟨_, rfl⟩
  · intro q vs m hsub p
    have hpred : ∀ p2, (!(vs.any (fun v => v.1 == p2))) = true ↔
        ∀ pr ∈ vs, pr.1 ≠ p2 := by
      intro p2
      simp [List.any_eq_false]
    simp only [substitute_placeholders] at hsub
    by_cases hm : ((findPlaceholders q).filter
        (fun p2 => !(vs.any (fun v => v.1 == p2)))).isEmpty = true
    · rw [if_pos hm] at hsub
      exact absurd hsub (by simp)
    · rw [if_neg hm] at hsub
      injection hsub with hmm
      subst hmm
      constructor
      · intro hp
        have h3 := List.mem_filter.mp hp
        exact ⟨h3.1, (hpred p).mp h3.2⟩
      · intro hp
        exact List.mem_filter.mpr ⟨hp.1, (hpred p).mpr hp.2⟩

/-- C6 witness: the missing-name characterization applied to a concrete
failing substitution. -/
theorem c6_amended_witness :
    substitute_placeholders "\x7b\x7buserId\x7d\x7d" [] = .error ["userId"] ∧
    (∀ p, p ∈ ["userId"] ↔ (p ∈ findPlaceholders "\x7b\x7buserId\x7d\x7d" ∧
      ∀ pr ∈ ([] : List (String × String)), pr.1 ≠ p)) :=
  ⟨rfl, c6_amended.2.1 "\x7b\x7buserId\x7d\x7d" [] ["userId"] rfl⟩

end MongoMcp
